import Mathlib

/-!
Shallow embedding of the Points Policy Engine of `ATP_Beta7.py`:
calendar math, the policy calculator, the points ledger with its
aggregate recomputation, the add/undo operations, the status bands
and the auto-expiration (roll-off) engine, together with theorems
settling the specification claims about them.
-/

namespace ATP

/-- A calendar date as Python's `datetime.date` carries it:
year, month (1..12) and day (1..31) for well-formed values.
The structure itself does not enforce the bounds; `Date.Valid` does. -/
structure Date where
  year : Int
  month : Nat
  day : Nat
  deriving Repr, DecidableEq

/-- Python `date` ordering (`a <= b`), lexicographic on (year, month, day). -/
def Date.ble (a b : Date) : Bool :=
  a.year < b.year ||
    (a.year == b.year &&
      (a.month < b.month || (a.month == b.month && a.day ≤ b.day)))

/-- Python `date` ordering (`a < b`), lexicographic on (year, month, day). -/
def Date.blt (a b : Date) : Bool :=
  a.year < b.year ||
    (a.year == b.year &&
      (a.month < b.month || (a.month == b.month && a.day < b.day)))

/-- A structurally valid Gregorian date (what `datetime.date` accepts,
with the day bound relaxed to 31; the exact per-month bound is kept
separately where needed). -/
def Date.Valid (d : Date) : Prop :=
  1 ≤ d.month ∧ d.month ≤ 12 ∧ 1 ≤ d.day ∧ d.day ≤ 31

instance (d : Date) : Decidable d.Valid := by
  unfold Date.Valid; infer_instance

/-- Leap-year test exactly as the source writes it:
`y % 4 == 0 and (y % 100 != 0 or y % 400 == 0)`. -/
def isLeap (y : Int) : Bool :=
  y % 4 == 0 && (y % 100 != 0 || y % 400 == 0)

/-- Days in a month, from the branch structure of `add_months`:
31 for months 1,3,5,7,8,10,12; 30 for 4,6,9,11; February by `isLeap`. -/
def daysInMonth (y : Int) (m : Nat) : Nat :=
  if m = 1 ∨ m = 3 ∨ m = 5 ∨ m = 7 ∨ m = 8 ∨ m = 10 ∨ m = 12 then 31
  else if m = 4 ∨ m = 6 ∨ m = 9 ∨ m = 11 then 30
  else if isLeap y then 29 else 28

/-- `add_months(orig, months)` from the source: floor-divide the shifted
month index (Python `//` and `%`), then clamp the day to the target
month's length. -/
def add_months (orig : Date) (months : Int) : Date :=
  let t : Int := (orig.month : Int) - 1 + months
  let y : Int := orig.year + t.fdiv 12
  let m : Nat := (t.emod 12).toNat + 1
  let dim : Nat := daysInMonth y m
  ⟨y, m, min orig.day dim⟩

/-- `first_of_month(d)` from the source. -/
def first_of_month (d : Date) : Date :=
  ⟨d.year, d.month, 1⟩

/-- `first_of_next_month(d)` from the source. -/
def first_of_next_month (d : Date) : Date :=
  add_months (first_of_month d) 1

/-- `two_months_then_first(d)` from the source. -/
def two_months_then_first (d : Date) : Date :=
  first_of_next_month (add_months d 2)

/-- `three_months_then_first(d)` from the source. -/
def three_months_then_first (d : Date) : Date :=
  first_of_next_month (add_months d 3)

/-- `step_next_due(current_due, perfect_date)` from the source. -/
def step_next_due (current_due perfect_date : Date) : Date :=
  if current_due.blt perfect_date then two_months_then_first perfect_date
  else two_months_then_first current_due

/-- `calc_rolloff_and_perfect(last_point)` from the source. -/
def calc_rolloff_and_perfect (last_point : Date) : Date × Date :=
  let roll_mark := add_months last_point 2
  let perf_mark := add_months last_point 3
  (first_of_next_month roll_mark, first_of_next_month perf_mark)

/-- Python's `date.min` (0001-01-01), the sentinel the engine uses when an
employee has no anchor date. -/
def dateMin : Date := ⟨1, 1, 1⟩

/-- Linear month index of a date (`12*year + month - 1`), used to reason
about month arithmetic. -/
def monthKey (d : Date) : Int :=
  12 * d.year + (d.month : Int) - 1

/-- Month index with the month clamped into range, a measure that behaves
even on malformed dates. -/
def monthKeyN (d : Date) : Int :=
  12 * d.year + min ((d.month : Int) - 1) 11

lemma monthKey_add_months (d : Date) (n : Int) :
    monthKey (add_months d n) = monthKey d + n := by
  unfold add_months monthKey
  have h12 : (0 : Int) < 12 := by norm_num
  set t : Int := (d.month : Int) - 1 + n with ht
  have hmod : 0 ≤ t.emod 12 := Int.emod_nonneg t (by norm_num)
  have hlt : t.emod 12 < 12 := Int.emod_lt_of_pos t h12
  have hfd : t.fdiv 12 = t / 12 := Int.fdiv_eq_ediv t (by norm_num)
  have hdm : 12 * (t / 12) + t.emod 12 = t := Int.ediv_add_emod t 12
  have htn : ((t.emod 12).toNat : Int) = t.emod 12 := Int.toNat_of_nonneg hmod
  push_cast
  rw [htn, hfd]
  omega

lemma month_bounds_add_months (d : Date) (n : Int) :
    1 ≤ (add_months d n).month ∧ (add_months d n).month ≤ 12 := by
  unfold add_months
  have hmod : 0 ≤ ((d.month : Int) - 1 + n).emod 12 :=
    Int.emod_nonneg _ (by norm_num)
  have hlt : ((d.month : Int) - 1 + n).emod 12 < 12 :=
    Int.emod_lt_of_pos _ (by norm_num)
  simp only
  omega

lemma monthKeyN_eq_monthKey {d : Date} (h : d.month ≤ 12) :
    monthKeyN d = monthKey d := by
  unfold monthKeyN monthKey
  omega

lemma monthKeyN_le_of_ble {a b : Date} (h : a.ble b = true) :
    monthKeyN a ≤ monthKey b := by
  unfold Date.ble at h
  simp only [Bool.or_eq_true, Bool.and_eq_true, beq_iff_eq, decide_eq_true_eq] at h
  unfold monthKeyN monthKey
  omega

lemma monthKeyN_le_of_blt {a b : Date} (h : a.blt b = true) :
    monthKeyN a ≤ monthKey b := by
  unfold Date.blt at h
  simp only [Bool.or_eq_true, Bool.and_eq_true, beq_iff_eq, decide_eq_true_eq] at h
  unfold monthKeyN monthKey
  omega

lemma monthKeyN_two_months_then_first (d : Date) :
    monthKeyN (two_months_then_first d) = monthKey d + 3 := by
  have hb := month_bounds_add_months (first_of_month (add_months d 2)) 1
  have h1 : monthKeyN (two_months_then_first d) = monthKey (two_months_then_first d) :=
    monthKeyN_eq_monthKey hb.2
  rw [h1]
  unfold two_months_then_first first_of_next_month
  rw [monthKey_add_months]
  have h2 : monthKey (first_of_month (add_months d 2)) = monthKey (add_months d 2) := by
    unfold monthKey first_of_month
    simp
  rw [h2, monthKey_add_months]
  ring

lemma monthKeyN_step_next_due (cur perf : Date) :
    monthKeyN cur + 3 ≤ monthKeyN (step_next_due cur perf) := by
  unfold step_next_due
  by_cases h : cur.blt perf = true
  · rw [if_pos h, monthKeyN_two_months_then_first]
    have h1 := monthKeyN_le_of_blt h
    have h2 : monthKeyN perf ≤ monthKey perf := by
      unfold monthKeyN monthKey; omega
    have h3 : monthKeyN cur ≤ monthKey perf := h1
    omega
  · rw [if_neg h, monthKeyN_two_months_then_first]
    have h2 : monthKeyN cur ≤ monthKey cur := by
      unfold monthKeyN monthKey; omega
    omega

/-- Decimal rounding to 2 places (Python `round(x, 2)`), ties to even.
On the program's point values (multiples of 0.5) it is the identity. -/
def round2 (x : ℚ) : ℚ :=
  let y := 100 * x
  let f : Int := ⌊y⌋
  let r := y - f
  if r < 1/2 then (f : ℚ) / 100
  else if 1/2 < r then ((f : ℚ) + 1) / 100
  else if f % 2 = 0 then (f : ℚ) / 100 else ((f : ℚ) + 1) / 100

lemma round2_intCast (n : Int) : round2 (n : ℚ) = n := by
  unfold round2
  have hf : ⌊(100 : ℚ) * n⌋ = 100 * n := by
    rw [show (100 : ℚ) * n = ((100 * n : Int) : ℚ) by push_cast; ring]
    exact Int.floor_intCast _
  simp only [hf]
  rw [if_pos]
  · push_cast; ring
  · push_cast; norm_num

/-- The deduction loop of `auto_expire_points`:
`while next_roll <= today and current_total > 0: deduct 1.0 (floored at 0),
count it, advance next_roll`. Returns the final due date, total and the
number of deductions. -/
def catchUp (today perfect : Date) (next_roll : Date) (total : ℚ) (removed : Nat) :
    Date × ℚ × Nat :=
  if h : next_roll.ble today = true ∧ 0 < total then
    catchUp today perfect (step_next_due next_roll perfect)
      (max 0 (round2 (total - 1))) (removed + 1)
  else
    (next_roll, total, removed)
termination_by (monthKey today + 1 - monthKeyN next_roll).toNat
decreasing_by
  have h1 := monthKeyN_le_of_ble h.1
  have h2 := monthKeyN_step_next_due next_roll perfect
  omega

/-- The due-date-only loop of `auto_expire_points` (zero-balance branch):
`while next_roll <= today: advance next_roll`. -/
def bumpLoop (today perfect : Date) (next_roll : Date) : Date :=
  if h : next_roll.ble today = true then
    bumpLoop today perfect (step_next_due next_roll perfect)
  else
    next_roll
termination_by (monthKey today + 1 - monthKeyN next_roll).toNat
decreasing_by
  have h1 := monthKeyN_le_of_ble h
  have h2 := monthKeyN_step_next_due next_roll perfect
  omega

lemma bumpLoop_not_ble (today perfect next_roll : Date) :
    (bumpLoop today perfect next_roll).ble today = false := by
  unfold bumpLoop
  split
  · exact bumpLoop_not_ble today perfect _
  · rename_i h
    simpa using h
termination_by (monthKey today + 1 - monthKeyN next_roll).toNat
decreasing_by
  rename_i h
  have h1 := monthKeyN_le_of_ble h
  have h2 := monthKeyN_step_next_due next_roll perfect
  omega

lemma catchUp_exit (today perfect next_roll : Date) (total : ℚ) (removed : Nat) :
    ¬ (((catchUp today perfect next_roll total removed).1.ble today = true) ∧
       0 < (catchUp today perfect next_roll total removed).2.1) := by
  unfold catchUp
  split
  · exact catchUp_exit today perfect _ _ _
  · rename_i h
    simpa using h
termination_by (monthKey today + 1 - monthKeyN next_roll).toNat
decreasing_by
  rename_i h
  have h1 := monthKeyN_le_of_ble h.1
  have h2 := monthKeyN_step_next_due next_roll perfect
  omega

lemma catchUp_removed_pos (today perfect next_roll : Date) (total : ℚ) (removed : Nat)
    (h : next_roll.ble today = true ∧ 0 < total) :
    removed < (catchUp today perfect next_roll total removed).2.2 := by
  rw [catchUp, dif_pos h]
  have := catchUp_le_removed today perfect (step_next_due next_roll perfect)
    (max 0 (round2 (total - 1))) (removed + 1)
  omega
where
  /-- The deduction counter never decreases along the loop. -/
  catchUp_le_removed (today perfect next_roll : Date) (total : ℚ) (removed : Nat) :
      removed ≤ (catchUp today perfect next_roll total removed).2.2 := by
    unfold catchUp
    split
    · have := catchUp_le_removed today perfect (step_next_due next_roll perfect)
        (max 0 (round2 (total - 1))) (removed + 1)
      omega
    · simp
  termination_by (monthKey today + 1 - monthKeyN next_roll).toNat
  decreasing_by
    rename_i h
    have h1 := monthKeyN_le_of_ble h.1
    have h2 := monthKeyN_step_next_due next_roll perfect
    omega

/-! ## Date-string parsing (`parse_us_to_iso`) -/

/-- Numeric value of a digit list (most significant first). -/
def digitsToNat (l : List Char) : Nat :=
  l.foldl (fun acc c => acc * 10 + (c.toNat - 48)) 0

/-- Split a character list on a separator (like Python `str.split(sep)`). -/
def splitOnChar (sep : Char) : List Char → List (List Char)
  | [] => [[]]
  | c :: rest =>
    let r := splitOnChar sep rest
    if c = sep then [] :: r
    else
      match r with
      | [] => [[c]]
      | x :: xs => (c :: x) :: xs

/-- Python `str.strip()` on a character list. -/
def trimChars (l : List Char) : List Char :=
  ((l.dropWhile Char.isWhitespace).reverse.dropWhile Char.isWhitespace).reverse

/-- A 1- or 2-digit numeric field, as `strptime` `%m`/`%d` accept. -/
def numField2 (l : List Char) : Option Nat :=
  if l ≠ [] ∧ l.length ≤ 2 ∧ l.all Char.isDigit then some (digitsToNat l) else none

/-- A 4-digit year field, as `strptime` `%Y` accepts. -/
def numField4 (l : List Char) : Option Nat :=
  if l.length = 4 ∧ l.all Char.isDigit then some (digitsToNat l) else none

/-- Try one `MM sep DD sep YYYY` format: three numeric fields that form a
valid calendar date (the `datetime.date` constructor's checks). -/
def tryUsFormat (parts : List (List Char)) : Option Date :=
  match parts with
  | [ms, ds, ys] =>
    match numField2 ms, numField2 ds, numField4 ys with
    | some m, some d, some y =>
      if 1 ≤ m ∧ m ≤ 12 ∧ 1 ≤ d ∧ d ≤ daysInMonth (y : Int) m ∧ 1 ≤ y then
        some ⟨(y : Int), m, d⟩
      else none
    | _, _, _ => none
  | _ => none

/-- `parse_us_to_iso(s)` from the source: strip, then try `MM-DD-YYYY` and
`MM/DD/YYYY`; `none` when neither parses to a valid calendar date. The
source returns the ISO string of the parsed date; we keep the date itself. -/
def parse_us_to_iso (s : String) : Option Date :=
  let l := trimChars s.data
  if l = [] then none
  else
    match tryUsFormat (splitOnChar '-' l) with
    | some d => some d
    | none => tryUsFormat (splitOnChar '/' l)

/-! ## Status bands (`_status_for_total`) -/

/-- `_status_for_total(total)` from the source. -/
def _status_for_total (total : ℚ) : String :=
  if 7 ≤ total then "Termination Risk"
  else if 5 ≤ total then "Critical"
  else if 4 ≤ total then "Warning"
  else "Safe"

/-! ## Persistent state: employees table, points_history table -/

/-- One row of `points_history`. -/
structure Event where
  eid : Nat
  empId : Nat
  pdate : Date
  points : ℚ
  reason : String
  note : String
  flag : String
  deriving Repr, DecidableEq

/-- One row of `employees` (the fields the core mutates). -/
structure Employee where
  empId : Nat
  lastName : String
  firstName : String
  pointTotal : ℚ
  lastPointDate : Option Date
  rolloffDate : Option Date
  perfectAttendance : Option Date
  deriving Repr, DecidableEq

/-- The database: the two tables plus the AUTOINCREMENT counter for
`points_history.id`. -/
structure DB where
  employees : List Employee
  history : List Event
  nextId : Nat
  deriving Repr, DecidableEq

/-- `SELECT ... FROM employees WHERE employee_id=?` (primary-key lookup). -/
def findEmp (db : DB) (i : Nat) : Option Employee :=
  db.employees.find? (fun e => e.empId == i)

/-- `UPDATE employees SET ... WHERE employee_id=?`. -/
def updateEmp (db : DB) (i : Nat) (f : Employee → Employee) : DB :=
  { db with employees := db.employees.map (fun e => if e.empId == i then f e else e) }

/-- The employee's rows of `points_history`. -/
def empEvents (db : DB) (i : Nat) : List Event :=
  db.history.filter (fun ev => ev.empId == i)

/-- `SUM(points)` over a row set (0 when empty, as the source coalesces). -/
def sumPoints (evs : List Event) : ℚ :=
  evs.foldl (fun acc ev => acc + ev.points) 0

/-- `MAX(point_date)` over a row set (`none` when empty). -/
def maxDate : List Event → Option Date
  | [] => none
  | ev :: rest =>
    match maxDate rest with
    | none => some ev.pdate
    | some m => some (if m.ble ev.pdate then ev.pdate else m)

/-- `recompute_employee_after_change` from the source (the same SQL is
inlined in `_undo_point`): recompute total and last date from the remaining
rows, then rederive the policy dates. -/
def recompute_employee_after_change (db : DB) (i : Nat) : DB :=
  let evs := empEvents db i
  let new_total := sumPoints evs
  match maxDate evs with
  | none =>
    updateEmp db i (fun e =>
      { e with pointTotal := new_total, lastPointDate := none,
               rolloffDate := none, perfectAttendance := none })
  | some d =>
    let rp := calc_rolloff_and_perfect d
    updateEmp db i (fun e =>
      { e with pointTotal := new_total, lastPointDate := some d,
               rolloffDate := some rp.1, perfectAttendance := some rp.2 })

/-! ## Undo log -/

/-- `MAX_UNDO_HISTORY = 20`. -/
def MAX_UNDO_HISTORY : Nat := 20

/-- The payload `_add_point` pushes for one add (`action_type` is always
`add_point` in the modelled flow). -/
structure UndoEntry where
  pointId : Nat
  empId : Nat
  points : ℚ
  oldTotal : ℚ
  oldLastDate : Option Date
  deriving Repr, DecidableEq

/-- `UndoHistory.push` on a `deque(maxlen=20)`: newest first, oldest
silently dropped past capacity. -/
def pushUndo (e : UndoEntry) (s : List UndoEntry) : List UndoEntry :=
  e :: s.take (MAX_UNDO_HISTORY - 1)

/-! ## Adding, deleting and undoing point events -/

/-- The validation failures `_add_point` can signal. -/
inductive AddErr where
  | unknownEmployee
  | invalidDate
  | invalidMagnitude
  | missingReason
  deriving Repr, DecidableEq

/-- `_add_point` from the source, in the order the code checks:
employee resolution, date parse, magnitude in `(0.5, 1.0, 1.5)`,
non-empty reason; then insert the history row, patch the employee
aggregate incrementally and push an undo entry. Any failure aborts
before any mutation. -/
def _add_point (db : DB) (stack : List UndoEntry) (empId : Nat)
    (dateStr : String) (pts : ℚ) (reason note flag : String) :
    Except AddErr (DB × List UndoEntry) :=
  match findEmp db empId with
  | none => .error .unknownEmployee
  | some old_emp =>
    match parse_us_to_iso dateStr with
    | none => .error .invalidDate
    | some last_point =>
      if pts = 1/2 ∨ pts = 1 ∨ pts = 3/2 then
        if trimChars reason.data = [] then .error .missingReason
        else
          let point_id := db.nextId
          let ev : Event := ⟨point_id, empId, last_point, pts, reason, note, flag⟩
          let rp := calc_rolloff_and_perfect last_point
          let db1 := { db with history := db.history ++ [ev], nextId := point_id + 1 }
          let db2 := updateEmp db1 empId (fun e =>
            { e with pointTotal := e.pointTotal + pts,
                     lastPointDate := some last_point,
                     rolloffDate := some rp.1,
                     perfectAttendance := some rp.2 })
          let entry : UndoEntry :=
            ⟨point_id, empId, pts, old_emp.pointTotal, old_emp.lastPointDate⟩
          .ok (db2, pushUndo entry stack)
      else .error .invalidMagnitude

/-- `DELETE FROM points_history WHERE id=?` followed by
`recompute_employee_after_change` — the `delete_selected` flow for an
event owned by employee `i`. -/
def delete_selected (db : DB) (point_id : Nat) (i : Nat) : DB :=
  recompute_employee_after_change
    { db with history := db.history.filter (fun ev => ev.eid ≠ point_id) } i

/-- `_undo_point` from the source: pop the newest entry; if present, delete
the referenced history row and recompute the employee from the remaining
rows (the SQL inlined there is `recompute_employee_after_change`). -/
def _undo_point (db : DB) (stack : List UndoEntry) : DB × List UndoEntry :=
  match stack with
  | [] => (db, [])
  | entry :: rest =>
    (recompute_employee_after_change
      { db with history := db.history.filter (fun ev => ev.eid ≠ entry.pointId) }
      entry.empId, rest)

/-! ## Auto-Expiration (roll-off) engine (`auto_expire_points`) -/

/-- One aggregated CSV audit row of `auto_expire_points`. -/
structure AuditRow where
  empId : Nat
  lastName : String
  firstName : String
  runDate : Date
  removed : Nat
  newTotal : ℚ
  deriving Repr, DecidableEq

/-- The engine's selection query:
`WHERE rolloff_date IS NOT NULL AND date(rolloff_date) <= date('now')`. -/
def selectExpired (db : DB) (today : Date) : List Employee :=
  db.employees.filter (fun e =>
    match e.rolloffDate with
    | some r => r.ble today
    | none => false)

/-- The engine's per-employee `perfect_date`: the first of the month after
3 months from the anchor, or `date.min` when there is no anchor. -/
def perfectDateOf (last_point_iso : Option Date) : Date :=
  match last_point_iso with
  | some anchor => three_months_then_first anchor
  | none => dateMin

/-- The body of the engine's per-employee loop. `rec` is the row from the
up-front snapshot (`fetchall`); updates are written back by employee id. -/
def processEmployee (today : Date) (acc : DB × List AuditRow) (rec : Employee) :
    DB × List AuditRow :=
  let db := acc.1
  let log_rows := acc.2
  match rec.rolloffDate with
  | none => (db, log_rows)
  | some next_roll0 =>
    let current_total := rec.pointTotal
    let perfect_date := perfectDateOf rec.lastPointDate
    let res :=
      if 0 < current_total then
        catchUp today perfect_date next_roll0 current_total 0
      else
        (bumpLoop today perfect_date next_roll0, current_total, 0)
    let next_roll := res.1
    let new_total := res.2.1
    let removed := res.2.2
    if 0 < removed then
      let db1 := updateEmp db rec.empId (fun e =>
        { e with pointTotal := new_total, rolloffDate := some next_roll })
      let ev : Event :=
        ⟨db1.nextId, rec.empId, today, -(removed : ℚ),
         "Auto Rolloff Adjustment",
         "Automatic 2-Month Point Expiration (perfect-month skip)", "AUTO"⟩
      let db2 := { db1 with history := db1.history ++ [ev], nextId := db1.nextId + 1 }
      (db2, log_rows ++ [⟨rec.empId, rec.lastName, rec.firstName, today, removed, new_total⟩])
    else
      if next_roll ≠ next_roll0 then
        (updateEmp db rec.empId (fun e => { e with rolloffDate := some next_roll }), log_rows)
      else
        (db, log_rows)

/-- `auto_expire_points` from the source: snapshot the overdue employees,
then run the per-employee loop over the snapshot, threading the database
and accumulating the audit rows. -/
def auto_expire_points (db : DB) (today : Date) : DB × List AuditRow :=
  (selectExpired db today).foldl (processEmployee today) (db, [])

/-! ## Helper lemmas: date order, `maxDate`, row lookup/update -/

lemma Date.ble_refl (a : Date) : a.ble a = true := by
  simp [Date.ble]

lemma Date.ble_total (a b : Date) : a.ble b = true ∨ b.ble a = true := by
  simp only [Date.ble, Bool.or_eq_true, Bool.and_eq_true, beq_iff_eq, decide_eq_true_eq]
  omega

lemma Date.ble_trans {a b c : Date} (h1 : a.ble b = true) (h2 : b.ble c = true) :
    a.ble c = true := by
  simp only [Date.ble, Bool.or_eq_true, Bool.and_eq_true, beq_iff_eq,
    decide_eq_true_eq] at h1 h2 ⊢
  omega

lemma Date.ne_of_ble_of_not_ble {a b t : Date}
    (h1 : a.ble t = true) (h2 : b.ble t = false) : a ≠ b := by
  intro h
  rw [← h, h1] at h2
  exact absurd h2 (by simp)

lemma maxDate_eq_none {evs : List Event} : maxDate evs = none ↔ evs = [] := by
  cases evs with
  | nil => simp [maxDate]
  | cons ev rest =>
    simp only [maxDate]
    cases maxDate rest <;> simp

lemma maxDate_spec : ∀ {evs : List Event} {m : Date}, maxDate evs = some m →
    (∃ ev ∈ evs, ev.pdate = m) ∧ ∀ ev ∈ evs, ev.pdate.ble m = true := by
  intro evs
  induction evs with
  | nil => intro m h; simp [maxDate] at h
  | cons ev rest ih =>
    intro m h
    rw [maxDate] at h
    cases hr : maxDate rest with
    | none =>
      rw [hr] at h
      simp only [Option.some.injEq] at h
      have hrest : rest = [] := maxDate_eq_none.mp hr
      subst hrest
      subst h
      exact ⟨⟨ev, by simp⟩, by simp [Date.ble_refl]⟩
    | some mr =>
      rw [hr] at h
      simp only [Option.some.injEq] at h
      obtain ⟨⟨ev', hev'mem, hev'eq⟩, hub⟩ := ih hr
      by_cases hc : mr.ble ev.pdate = true
      · rw [if_pos hc] at h
        subst h
        refine ⟨⟨ev, by simp⟩, ?_⟩
        intro e he
        rcases List.mem_cons.mp he with rfl | he'
        · exact Date.ble_refl _
        · exact Date.ble_trans (hub e he') hc
      · rw [if_neg hc] at h
        subst h
        refine ⟨⟨ev', List.mem_cons_of_mem _ hev'mem, hev'eq⟩, ?_⟩
        intro e he
        rcases List.mem_cons.mp he with rfl | he'
        · rcases Date.ble_total e.pdate mr with hle | hle
          · exact hle
          · exact absurd hle hc
        · exact hub e he'

lemma find?_map_of_pres {α : Type} (p : α → Bool) (g : α → α)
    (hg : ∀ a, p (g a) = p a) (l : List α) :
    (l.map (fun a => if p a then g a else a)).find? p = (l.find? p).map g := by
  induction l with
  | nil => simp
  | cons a rest ih =>
    simp only [List.map_cons]
    by_cases hp : p a = true
    · rw [if_pos hp, List.find?_cons_of_pos _ (by rw [hg]; exact hp),
          List.find?_cons_of_pos _ hp]
      simp
    · rw [if_neg hp, List.find?_cons_of_neg _ hp, List.find?_cons_of_neg _ hp]
      exact ih

lemma findEmp_updateEmp_self (db : DB) (i : Nat) (f : Employee → Employee)
    (hf : ∀ e, (f e).empId = e.empId) :
    findEmp (updateEmp db i f) i = (findEmp db i).map f := by
  unfold findEmp updateEmp
  exact find?_map_of_pres (fun e => e.empId == i) f (by simp [hf]) db.employees

lemma findEmp_updateEmp_ne (db : DB) (i j : Nat) (f : Employee → Employee)
    (hf : ∀ e, (f e).empId = e.empId) (hij : i ≠ j) :
    findEmp (updateEmp db i f) j = findEmp db j := by
  unfold findEmp updateEmp
  induction db.employees with
  | nil => simp
  | cons a rest ih =>
    simp only [List.map_cons]
    by_cases ha : (a.empId == i) = true
    · have haj : (a.empId == j) = false := by
        simp only [beq_iff_eq] at ha
        rw [ha]
        simpa using hij
      have hfaj : ((f a).empId == j) = false := by rw [hf]; exact haj
      rw [if_pos ha]
      simp only [List.find?_cons, hfaj, haj]
      exact ih
    · rw [if_neg ha]
      cases haj : (a.empId == j) with
      | true => simp only [List.find?_cons, haj]
      | false =>
        simp only [List.find?_cons, haj]
        exact ih

/-! ## Claim theorems -/

/-- C6: for every pair of dates, `step_next_due(currentDue, perfectDueAnchor)`
returns `firstOfNextMonth(addMonths(perfectDueAnchor, 2))` when
`currentDue < perfectDueAnchor`, and `firstOfNextMonth(addMonths(currentDue, 2))`
otherwise. -/
theorem C6_step_next_due_spec (current_due perfect_date : Date) :
    step_next_due current_due perfect_date =
      if current_due.blt perfect_date then
        first_of_next_month (add_months perfect_date 2)
      else
        first_of_next_month (add_months current_due 2) := by
  rfl

/-- C7: for every last-infraction date `d` the policy calculator returns
`rolloffDue = firstOfNextMonth(addMonths(d, 2))` and
`perfectAttendanceDue = firstOfNextMonth(addMonths(d, 3))`; in particular
for `d = 2025-01-15` it returns `(2025-04-01, 2025-05-01)`. -/
theorem C7_calc_rolloff_and_perfect_spec :
    (∀ d : Date, calc_rolloff_and_perfect d =
      (first_of_next_month (add_months d 2), first_of_next_month (add_months d 3))) ∧
    calc_rolloff_and_perfect ⟨2025, 1, 15⟩ = (⟨2025, 4, 1⟩, ⟨2025, 5, 1⟩) :=
  ⟨fun _ => rfl, by decide⟩

/-- C10: the status classification is a pure function of the total with
ordered non-overlapping bands, boundary values going to the higher-severity
band: `total >= 7` is Termination Risk, `5 <= total < 7` is Critical,
`4 <= total < 5` is Warning, `total < 4` (including 0) is Safe. -/
theorem C10_status_bands (total : ℚ) :
    (_status_for_total total = "Termination Risk" ↔ 7 ≤ total) ∧
    (_status_for_total total = "Critical" ↔ 5 ≤ total ∧ total < 7) ∧
    (_status_for_total total = "Warning" ↔ 4 ≤ total ∧ total < 5) ∧
    (_status_for_total total = "Safe" ↔ total < 4) := by
  unfold _status_for_total
  split_ifs with h1 h2 h3
  · exact ⟨⟨fun _ => h1, fun _ => rfl⟩,
      ⟨fun hx => by simp at hx, fun hx => absurd hx.2 (by linarith)⟩,
      ⟨fun hx => by simp at hx, fun hx => absurd hx.2 (by linarith)⟩,
      ⟨fun hx => by simp at hx, fun hx => absurd hx (by linarith)⟩⟩
  · exact ⟨⟨fun hx => by simp at hx, fun hx => absurd hx h1⟩,
      ⟨fun _ => ⟨h2, by linarith⟩, fun _ => rfl⟩,
      ⟨fun hx => by simp at hx, fun hx => absurd hx.2 (by linarith)⟩,
      ⟨fun hx => by simp at hx, fun hx => absurd h2 (by linarith)⟩⟩
  · exact ⟨⟨fun hx => by simp at hx, fun hx => absurd hx h1⟩,
      ⟨fun hx => by simp at hx, fun hx => absurd hx.1 h2⟩,
      ⟨fun _ => ⟨h3, by linarith⟩, fun _ => rfl⟩,
      ⟨fun hx => by simp at hx, fun hx => absurd h3 (by linarith)⟩⟩
  · exact ⟨⟨fun hx => by simp at hx, fun hx => absurd hx h1⟩,
      ⟨fun hx => by simp at hx, fun hx => absurd hx.1 h2⟩,
      ⟨fun hx => by simp at hx, fun hx => absurd hx.1 h3⟩,
      ⟨fun _ => by linarith, fun _ => rfl⟩⟩

/-- Modelled from the spec's words (for comparison with the code's
`daysInMonth`): the last valid day of a Gregorian month, with the leap rule
"divisible by 4, except centuries unless divisible by 400". -/
def daysInMonthSpec (y : Int) (m : Nat) : Nat :=
  if m = 2 then (if (4 ∣ y ∧ ¬ (100 ∣ y)) ∨ 400 ∣ y then 29 else 28)
  else if m = 4 ∨ m = 6 ∨ m = 9 ∨ m = 11 then 30
  else 31

lemma isLeap_iff (y : Int) :
    isLeap y = true ↔ ((4 ∣ y ∧ ¬ (100 ∣ y)) ∨ 400 ∣ y) := by
  simp only [isLeap, Bool.and_eq_true, Bool.or_eq_true, beq_iff_eq, bne_iff_ne, ne_eq]
  omega

lemma daysInMonth_eq_spec {y : Int} {m : Nat} (h1 : 1 ≤ m) (h2 : m ≤ 12) :
    daysInMonth y m = daysInMonthSpec y m := by
  have hiff := isLeap_iff y
  interval_cases m <;>
    simp only [daysInMonth, daysInMonthSpec] <;>
    norm_num <;>
    (by_cases hl : isLeap y = true
     · rw [if_pos hl, if_pos (hiff.mp hl)]
     · rw [if_neg hl, if_neg (fun hc => hl (hiff.mpr hc))])

/-- C8: for every date and every integer `n`, `addMonths(date, n)` lands on
the month exactly `n` calendar months away (stated with the linear month
index), with the day clamped to the last valid day of the target month under
the Gregorian leap rule; in particular
`addMonths(2024-01-31, 1) = 2024-02-29` and
`addMonths(2023-01-31, 1) = 2023-02-28`. -/
theorem C8_add_months_correct :
    (∀ (d : Date) (n : Int),
        monthKey (add_months d n) = monthKey d + n ∧
        1 ≤ (add_months d n).month ∧ (add_months d n).month ≤ 12 ∧
        (add_months d n).day =
          min d.day (daysInMonthSpec (add_months d n).year (add_months d n).month)) ∧
    (∀ y : Int, isLeap y = true ↔ ((4 ∣ y ∧ ¬ (100 ∣ y)) ∨ 400 ∣ y)) ∧
    add_months ⟨2024, 1, 31⟩ 1 = ⟨2024, 2, 29⟩ ∧
    add_months ⟨2023, 1, 31⟩ 1 = ⟨2023, 2, 28⟩ := by
  refine ⟨fun d n => ?_, isLeap_iff, by decide, by decide⟩
  obtain ⟨hm1, hm2⟩ := month_bounds_add_months d n
  refine ⟨monthKey_add_months d n, hm1, hm2, ?_⟩
  have hd : (add_months d n).day =
      min d.day (daysInMonth (add_months d n).year (add_months d n).month) := rfl
  rw [hd, daysInMonth_eq_spec hm1 hm2]

/-- C9: with the target employee resolved, an add-point request whose date
string does not parse signals `InvalidDate`, and one whose (parsed-date)
magnitude is outside `{0.5, 1.0, 1.5}` signals `InvalidMagnitude`; in both
cases `_add_point` returns the error before any mutation, so no history row
is inserted and the employee row is untouched. -/
theorem C9_validation_aborts (db : DB) (stack : List UndoEntry) (empId : Nat)
    (s : String) (pts : ℚ) (reason note flag : String) (emp : Employee)
    (hemp : findEmp db empId = some emp) :
    (parse_us_to_iso s = none →
      _add_point db stack empId s pts reason note flag = .error .invalidDate) ∧
    (∀ d, parse_us_to_iso s = some d → ¬ (pts = 1/2 ∨ pts = 1 ∨ pts = 3/2) →
      _add_point db stack empId s pts reason note flag = .error .invalidMagnitude) := by
  constructor
  · intro hp
    unfold _add_point
    rw [hemp, hp]
  · intro d hp hm
    unfold _add_point
    rw [hemp, hp]
    simp only [if_neg hm]

/-- Concrete state for exercising `_add_point` validation: one employee with
an empty ledger. -/
def C9db : DB := ⟨[⟨1, "Doe", "Jane", 0, none, none, none⟩], [], 1⟩

/-- Witness for C9: a malformed date string signals `InvalidDate`, and a
magnitude of 2.0 with a well-formed date signals `InvalidMagnitude`. -/
theorem C9_validation_aborts_witness :
    _add_point C9db [] 1 "not-a-date" 1 "Absence" "" "" = .error .invalidDate ∧
    _add_point C9db [] 1 "01-15-2025" 2 "Absence" "" "" = .error .invalidMagnitude := by
  constructor
  · exact (C9_validation_aborts C9db [] 1 "not-a-date" 1 "Absence" "" ""
      ⟨1, "Doe", "Jane", 0, none, none, none⟩ (by decide)).1 (by decide)
  · exact (C9_validation_aborts C9db [] 1 "01-15-2025" 2 "Absence" "" ""
      ⟨1, "Doe", "Jane", 0, none, none, none⟩ (by decide)).2 ⟨2025, 1, 15⟩
      (by decide) (by norm_num)

/-- The positive-magnitude (infraction) rows of a row set. -/
def positiveEvents (evs : List Event) : List Event :=
  evs.filter (fun ev => decide (0 < ev.points))

/-- How `recompute_employee_after_change` rewrites the employee's row. -/
lemma recompute_findEmp (db : DB) (i : Nat) :
    findEmp (recompute_employee_after_change db i) i =
      (findEmp db i).map (fun e =>
        match maxDate (empEvents db i) with
        | none =>
          { e with pointTotal := sumPoints (empEvents db i), lastPointDate := none,
                   rolloffDate := none, perfectAttendance := none }
        | some d =>
          { e with pointTotal := sumPoints (empEvents db i), lastPointDate := some d,
                   rolloffDate := some (calc_rolloff_and_perfect d).1,
                   perfectAttendance := some (calc_rolloff_and_perfect d).2 }) := by
  unfold recompute_employee_after_change
  cases hmx : maxDate (empEvents db i) with
  | none =>
    simp only [hmx]
    exact findEmp_updateEmp_self _ _ _ (fun e => rfl)
  | some d =>
    simp only [hmx]
    exact findEmp_updateEmp_self _ _ _ (fun e => rfl)

/-- The success case of `_add_point`, spelled out. -/
lemma _add_point_ok (db : DB) (stack : List UndoEntry) (i : Nat) (s : String)
    (pts : ℚ) (r nt fl : String) (old : Employee) (d : Date)
    (hfe : findEmp db i = some old) (hp : parse_us_to_iso s = some d)
    (hm : pts = 1/2 ∨ pts = 1 ∨ pts = 3/2) (hr : ¬ (trimChars r.data = [])) :
    _add_point db stack i s pts r nt fl = .ok
      (updateEmp
        { db with history := db.history ++ [⟨db.nextId, i, d, pts, r, nt, fl⟩],
                  nextId := db.nextId + 1 } i
        (fun e => { e with pointTotal := e.pointTotal + pts,
                           lastPointDate := some d,
                           rolloffDate := some (calc_rolloff_and_perfect d).1,
                           perfectAttendance := some (calc_rolloff_and_perfect d).2 }),
       pushUndo ⟨db.nextId, i, pts, old.pointTotal, old.lastPointDate⟩ stack) := by
  unfold _add_point
  simp only [hfe, hp, if_pos hm, if_neg hr]

/-- The employee-row rewrite `_add_point` performs on success. -/
def addUpd (pts : ℚ) (d : Date) : Employee → Employee := fun e =>
  { e with pointTotal := e.pointTotal + pts,
           lastPointDate := some d,
           rolloffDate := some (calc_rolloff_and_perfect d).1,
           perfectAttendance := some (calc_rolloff_and_perfect d).2 }

/-- The database state after a successful `_add_point`. -/
def postAddDB (db : DB) (i : Nat) (d : Date) (pts : ℚ) (r nt fl : String) : DB :=
  updateEmp
    { db with history := db.history ++ [⟨db.nextId, i, d, pts, r, nt, fl⟩],
              nextId := db.nextId + 1 } i (addUpd pts d)

/-- `_add_point_ok` restated with the named post-state. -/
lemma _add_point_ok2 (db : DB) (stack : List UndoEntry) (i : Nat) (s : String)
    (pts : ℚ) (r nt fl : String) (old : Employee) (d : Date)
    (hfe : findEmp db i = some old) (hp : parse_us_to_iso s = some d)
    (hm : pts = 1/2 ∨ pts = 1 ∨ pts = 3/2) (hr : ¬ (trimChars r.data = [])) :
    _add_point db stack i s pts r nt fl = .ok
      (postAddDB db i d pts r nt fl,
       pushUndo ⟨db.nextId, i, pts, old.pointTotal, old.lastPointDate⟩ stack) :=
  _add_point_ok db stack i s pts r nt fl old d hfe hp hm hr

lemma postAdd_history (db : DB) (i : Nat) (d : Date) (pts : ℚ)
    (r nt fl : String) :
    (postAddDB db i d pts r nt fl).history =
      db.history ++ [⟨db.nextId, i, d, pts, r, nt, fl⟩] := rfl

lemma findEmp_postAdd (db : DB) (i : Nat) (d : Date) (pts : ℚ)
    (r nt fl : String) :
    findEmp (postAddDB db i d pts r nt fl) i =
      (findEmp db i).map (addUpd pts d) :=
  findEmp_updateEmp_self _ i (addUpd pts d) (fun e => rfl)

/-- Initial state for the C1 counterexample: employee 1, empty ledger. -/
def C1db0 : DB := ⟨[⟨1, "Doe", "Jane", 0, none, none, none⟩], [], 1⟩

/-- State after adding a 1.0 infraction dated 2025-03-10 to `C1db0`. -/
def C1db1 : DB :=
  ⟨[⟨1, "Doe", "Jane", 1, some ⟨2025, 3, 10⟩, some ⟨2025, 6, 1⟩, some ⟨2025, 7, 1⟩⟩],
   [⟨1, 1, ⟨2025, 3, 10⟩, 1, "Absence", "", ""⟩], 2⟩

/-- Undo stack after the first add of the C1 counterexample. -/
def C1stk1 : List UndoEntry := [⟨1, 1, 1, 0, none⟩]

/-- State after further adding a 1.0 infraction backdated to 2025-01-05. -/
def C1db2 : DB :=
  ⟨[⟨1, "Doe", "Jane", 2, some ⟨2025, 1, 5⟩, some ⟨2025, 4, 1⟩, some ⟨2025, 5, 1⟩⟩],
   [⟨1, 1, ⟨2025, 3, 10⟩, 1, "Absence", "", ""⟩,
    ⟨2, 1, ⟨2025, 1, 5⟩, 1, "Absence", "", ""⟩], 3⟩

/-- Undo stack after the second add of the C1 counterexample. -/
def C1stk2 : List UndoEntry :=
  [⟨2, 1, 1, 1, some ⟨2025, 3, 10⟩⟩, ⟨1, 1, 1, 0, none⟩]

/-- C1 counterexample: two valid adds — a 1.0 infraction dated 2025-03-10,
then a 1.0 infraction backdated to 2025-01-05 — leave the stored
last-infraction-date at 2025-01-05, while the maximum date among the
employee's positive-magnitude events is 2025-03-10. The stored anchor is
not the maximum positive-event date, refuting the claim after the core
mutation "adding a point event". -/
theorem C1_counterexample :
    _add_point C1db0 [] 1 "03-10-2025" 1 "Absence" "" "" = .ok (C1db1, C1stk1) ∧
    _add_point C1db1 C1stk1 1 "01-05-2025" 1 "Absence" "" "" = .ok (C1db2, C1stk2) ∧
    (findEmp C1db2 1).map Employee.lastPointDate = some (some ⟨2025, 1, 5⟩) ∧
    maxDate (positiveEvents (empEvents C1db2 1)) = some ⟨2025, 3, 10⟩ ∧
    (⟨2025, 1, 5⟩ : Date) ≠ ⟨2025, 3, 10⟩ := by
  refine ⟨?_, ?_, by decide, by decide, by decide⟩
  · rw [_add_point_ok C1db0 [] 1 "03-10-2025" 1 "Absence" "" ""
        ⟨1, "Doe", "Jane", 0, none, none, none⟩ ⟨2025, 3, 10⟩
        (by decide) (by decide) (by norm_num) (by decide)]
    simp only [C1db0, C1db1, C1stk1, updateEmp, pushUndo, MAX_UNDO_HISTORY]
    norm_num
    decide
  · rw [_add_point_ok C1db1 C1stk1 1 "01-05-2025" 1 "Absence" "" ""
        ⟨1, "Doe", "Jane", 1, some ⟨2025, 3, 10⟩, some ⟨2025, 6, 1⟩, some ⟨2025, 7, 1⟩⟩
        ⟨2025, 1, 5⟩ (by decide) (by decide) (by norm_num) (by decide)]
    simp only [C1db1, C1db2, C1stk1, C1stk2, updateEmp, pushUndo, MAX_UNDO_HISTORY]
    norm_num
    decide

/-- C1 (amended): after a recompute (event deletion or undo) the stored
last-infraction-date equals the maximum date among ALL of the employee's
remaining ledger events — negative roll-off/adjustment rows included —
and is null exactly when no events remain; after `_add_point` it is
unconditionally the added event's date, even when an existing event is
later. -/
theorem C1_amended_anchor :
    (∀ (db : DB) (i : Nat) (e' : Employee),
        findEmp (recompute_employee_after_change db i) i = some e' →
        ((empEvents db i = [] → e'.lastPointDate = none) ∧
         (∀ m, e'.lastPointDate = some m →
            (∃ ev ∈ empEvents db i, ev.pdate = m) ∧
            ∀ ev ∈ empEvents db i, ev.pdate.ble m = true))) ∧
    (∀ (db : DB) (stack : List UndoEntry) (i : Nat) (s : String) (pts : ℚ)
        (r nt fl : String) (db' : DB) (stack' : List UndoEntry) (d : Date)
        (e' : Employee),
        _add_point db stack i s pts r nt fl = .ok (db', stack') →
        parse_us_to_iso s = some d →
        findEmp db' i = some e' →
        e'.lastPointDate = some d) := by
  constructor
  · intro db i e' h
    rw [recompute_findEmp] at h
    rcases Option.map_eq_some'.mp h with ⟨e, hfe, he'⟩
    cases hmx : maxDate (empEvents db i) with
    | none =>
      rw [hmx] at he'
      subst he'
      exact ⟨fun _ => rfl, fun m hm => by simp at hm⟩
    | some mx =>
      rw [hmx] at he'
      subst he'
      refine ⟨fun hnil => ?_, fun m hm => ?_⟩
      · rw [maxDate_eq_none.mpr hnil] at hmx; cases hmx
      · simp only [Option.some.injEq] at hm
        subst hm
        exact maxDate_spec hmx
  · intro db stack i s pts r nt fl db' stack' d e' hadd hp hfind
    cases hfe : findEmp db i with
    | none =>
      unfold _add_point at hadd
      simp only [hfe] at hadd
      exact Except.noConfusion hadd
    | some old =>
      by_cases hm : pts = 1/2 ∨ pts = 1 ∨ pts = 3/2
      · by_cases hr : trimChars r.data = []
        · unfold _add_point at hadd
          simp only [hfe, hp, if_pos hm, if_pos hr] at hadd
          exact Except.noConfusion hadd
        · rw [_add_point_ok db stack i s pts r nt fl old d hfe hp hm hr] at hadd
          simp only [Except.ok.injEq, Prod.mk.injEq] at hadd
          obtain ⟨hdb', _⟩ := hadd
          subst hdb'
          rw [findEmp_updateEmp_self _ i
            (fun e => { e with pointTotal := e.pointTotal + pts,
                               lastPointDate := some d,
                               rolloffDate := some (calc_rolloff_and_perfect d).1,
                               perfectAttendance := some (calc_rolloff_and_perfect d).2 })
            (fun e => rfl)] at hfind
          have hfe1 : findEmp { db with
              history := db.history ++
                [⟨db.nextId, i, d, pts, r, nt, fl⟩],
              nextId := db.nextId + 1 } i = findEmp db i := rfl
          rw [hfe1, hfe] at hfind
          simp only [Option.map_some', Option.some.injEq] at hfind
          subst hfind
          rfl
      · unfold _add_point at hadd
        simp only [hfe, hp, if_neg hm] at hadd
        exact Except.noConfusion hadd

/-- Concrete state for the C1 witness: employee 1 with one positive event
dated 2025-01-10 and one auto-adjustment event dated 2025-03-01. -/
def C1wdb : DB :=
  ⟨[⟨1, "Doe", "Jane", 0, some ⟨2025, 1, 10⟩, some ⟨2025, 4, 1⟩, some ⟨2025, 5, 1⟩⟩],
   [⟨1, 1, ⟨2025, 1, 10⟩, 1, "Absence", "", ""⟩,
    ⟨2, 1, ⟨2025, 3, 1⟩, -1, "Auto Rolloff Adjustment", "", "AUTO"⟩], 3⟩

/-- Witness for the amended C1: on `C1wdb` the recompute stores the
negative event's later date 2025-03-01, which is indeed the maximum over
all remaining events. -/
theorem C1_amended_anchor_witness :
    (∃ ev ∈ empEvents C1wdb 1, ev.pdate = ⟨2025, 3, 1⟩) ∧
    (∀ ev ∈ empEvents C1wdb 1, ev.pdate.ble ⟨2025, 3, 1⟩ = true) := by
  have hsum : sumPoints (empEvents C1wdb 1) = 0 := by
    norm_num [sumPoints, empEvents, C1wdb]
  have hmx : maxDate (empEvents C1wdb 1) = some ⟨2025, 3, 1⟩ := by decide
  have hfe0 : findEmp C1wdb 1 =
      some ⟨1, "Doe", "Jane", 0, some ⟨2025, 1, 10⟩, some ⟨2025, 4, 1⟩,
            some ⟨2025, 5, 1⟩⟩ := by decide
  have hfe : findEmp (recompute_employee_after_change C1wdb 1) 1 =
      some ⟨1, "Doe", "Jane", 0, some ⟨2025, 3, 1⟩, some ⟨2025, 6, 1⟩,
            some ⟨2025, 7, 1⟩⟩ := by
    rw [recompute_findEmp, hfe0]
    simp only [hmx, Option.map_some', hsum]
    decide
  exact (C1_amended_anchor.1 C1wdb 1
    ⟨1, "Doe", "Jane", 0, some ⟨2025, 3, 1⟩, some ⟨2025, 6, 1⟩, some ⟨2025, 7, 1⟩⟩
    hfe).2 ⟨2025, 3, 1⟩ rfl

/-- Failing input for C3: one employee with total 1.0, anchor 2024-12-15,
roll-off due 2025-03-01 (so the perfect-attendance milestone is 2025-04-01),
run on today = 2025-08-10. -/
def C3db : DB :=
  ⟨[⟨1, "Doe", "Jane", 1, some ⟨2024, 12, 15⟩, some ⟨2025, 3, 1⟩, some ⟨2025, 4, 1⟩⟩],
   [⟨1, 1, ⟨2024, 12, 15⟩, 1, "Absence", "", ""⟩], 2⟩

/-- C3 fails on the code: the engine processes the employee of `C3db`
(roll-off due 2025-03-01 on or before today 2025-08-10, one deduction is
applied), yet the catch-up loop exits as soon as the total hits zero and the
persisted due date 2025-07-01 is still on or before today — the processed
employee is left overdue. -/
theorem C3_processed_employee_left_overdue :
    ((auto_expire_points C3db ⟨2025, 8, 10⟩).1.employees.map Employee.rolloffDate
       = [some ⟨2025, 7, 1⟩]) ∧
    ((auto_expire_points C3db ⟨2025, 8, 10⟩).2.map AuditRow.removed = [1]) ∧
    Date.ble ⟨2025, 7, 1⟩ ⟨2025, 8, 10⟩ = true := by
  have hble1 : Date.ble ⟨2025, 3, 1⟩ ⟨2025, 8, 10⟩ = true := by decide
  have hstep1 : step_next_due ⟨2025, 3, 1⟩ ⟨2025, 4, 1⟩ = ⟨2025, 7, 1⟩ := by decide
  have hround : max (0 : ℚ) (round2 (1 - 1)) = 0 := by norm_num [round2]
  have hcu : catchUp ⟨2025, 8, 10⟩ ⟨2025, 4, 1⟩ ⟨2025, 3, 1⟩ 1 0 =
      (⟨2025, 7, 1⟩, 0, 1) := by
    rw [catchUp, dif_pos ⟨hble1, by norm_num⟩, hstep1, hround]
    rw [catchUp, dif_neg]
    rintro ⟨-, hlt⟩
    exact absurd hlt (by norm_num)
  have hsel : selectExpired C3db ⟨2025, 8, 10⟩ =
      [⟨1, "Doe", "Jane", 1, some ⟨2024, 12, 15⟩, some ⟨2025, 3, 1⟩,
        some ⟨2025, 4, 1⟩⟩] := by decide
  have hperf : perfectDateOf (some ⟨2024, 12, 15⟩) = ⟨2025, 4, 1⟩ := by decide
  have hrun : auto_expire_points C3db ⟨2025, 8, 10⟩ =
      (⟨[⟨1, "Doe", "Jane", 0, some ⟨2024, 12, 15⟩, some ⟨2025, 7, 1⟩,
          some ⟨2025, 4, 1⟩⟩],
        [⟨1, 1, ⟨2024, 12, 15⟩, 1, "Absence", "", ""⟩,
         ⟨2, 1, ⟨2025, 8, 10⟩, -1, "Auto Rolloff Adjustment",
          "Automatic 2-Month Point Expiration (perfect-month skip)", "AUTO"⟩], 3⟩,
       [⟨1, "Doe", "Jane", ⟨2025, 8, 10⟩, 1, 0⟩]) := by
    unfold auto_expire_points
    rw [hsel]
    simp only [List.foldl]
    unfold processEmployee
    simp only [hperf, hcu, if_pos (show (0 : ℚ) < 1 by norm_num), C3db, updateEmp,
      List.map, if_pos (show (0 : Nat) < 1 by norm_num)]
    norm_num
  rw [hrun]
  exact ⟨rfl, rfl, by decide⟩

/-! ## Aggregate invariants: helper lemmas -/

/-- The stored aggregate totals agree with the ledger. -/
def TotalsOk (db : DB) : Prop :=
  ∀ e ∈ db.employees, e.pointTotal = sumPoints (empEvents db e.empId)

/-- Every stored total is a whole (nonnegative integer) number of points. -/
def WholeTotals (db : DB) : Prop :=
  ∀ e ∈ db.employees, ∃ n : ℕ, e.pointTotal = (n : ℚ)

/-- The employee table has no duplicate primary keys. -/
def NodupIds (db : DB) : Prop :=
  (db.employees.map Employee.empId).Nodup

lemma foldl_add_points : ∀ (l : List Event) (init : ℚ),
    l.foldl (fun acc ev => acc + ev.points) init =
      init + l.foldl (fun acc ev => acc + ev.points) 0 := by
  intro l
  induction l with
  | nil => intro init; simp
  | cons e rest ih =>
    intro init
    simp only [List.foldl_cons]
    rw [ih (init + e.points), ih (0 + e.points)]
    ring

lemma sumPoints_append (l1 l2 : List Event) :
    sumPoints (l1 ++ l2) = sumPoints l1 + sumPoints l2 := by
  unfold sumPoints
  rw [List.foldl_append, foldl_add_points l2 (List.foldl _ 0 l1)]

lemma sumPoints_nat (n : ℕ) : round2 ((n : ℚ)) = n := by
  exact_mod_cast round2_intCast (n : ℤ)

lemma find?_of_mem_nodup : ∀ {l : List Employee} {e : Employee},
    (l.map Employee.empId).Nodup → e ∈ l →
    l.find? (fun x => x.empId == e.empId) = some e := by
  intro l
  induction l with
  | nil => intro e hN he; cases he
  | cons a rest ih =>
    intro e hN he
    rcases List.mem_cons.mp he with rfl | he'
    · simp [List.find?_cons]
    · simp only [List.map_cons, List.nodup_cons] at hN
      have hane : a.empId ≠ e.empId := by
        intro hcontra
        exact hN.1 (hcontra ▸ List.mem_map_of_mem Employee.empId he')
      rw [List.find?_cons_of_neg _ (by simpa using fun hc => hane hc)]
      exact ih hN.2 he'

lemma findEmp_of_mem {db : DB} {e : Employee} (hN : NodupIds db)
    (he : e ∈ db.employees) : findEmp db e.empId = some e :=
  find?_of_mem_nodup hN he

lemma mem_of_findEmp {db : DB} {i : Nat} {e : Employee}
    (h : findEmp db i = some e) : e ∈ db.employees ∧ e.empId = i := by
  have h1 := List.mem_of_find?_eq_some h
  have h2 := List.find?_some h
  simp only [beq_iff_eq] at h2
  exact ⟨h1, h2⟩

lemma updateEmp_ids (db : DB) (i : Nat) (f : Employee → Employee)
    (hf : ∀ e, (f e).empId = e.empId) :
    (updateEmp db i f).employees.map Employee.empId =
      db.employees.map Employee.empId := by
  unfold updateEmp
  simp only [List.map_map]
  apply List.map_congr_left
  intro e _
  by_cases h : e.empId = i <;> simp [h, hf]

lemma updateEmp_history (db : DB) (i : Nat) (f : Employee → Employee) :
    (updateEmp db i f).history = db.history := rfl

lemma updateEmp_totals (db : DB) (i : Nat) (f : Employee → Employee)
    (hf : ∀ e, (f e).pointTotal = e.pointTotal) :
    (updateEmp db i f).employees.map Employee.pointTotal =
      db.employees.map Employee.pointTotal := by
  unfold updateEmp
  simp only [List.map_map]
  apply List.map_congr_left
  intro e _
  by_cases h : e.empId = i <;> simp [h, hf]

lemma empEvents_filter_ne (l : List Event) (pid i j : Nat) (hij : j ≠ i)
    (hown : ∀ ev ∈ l, ev.eid = pid → ev.empId = i) :
    (l.filter (fun ev => ev.eid ≠ pid)).filter (fun ev => ev.empId == j) =
      l.filter (fun ev => ev.empId == j) := by
  induction l with
  | nil => rfl
  | cons ev rest ih =>
    have ihr := ih (fun e he hp => hown e (List.mem_cons_of_mem _ he) hp)
    simp only [ne_eq, decide_not] at ihr
    by_cases hp : ev.eid = pid
    · have hevi : ev.empId = i := hown ev (List.mem_cons_self _ _) hp
      have hj : (ev.empId == j) = false := by
        simp only [beq_eq_false_iff_ne, ne_eq, hevi]
        exact fun hc => hij hc.symm
      simp [List.filter_cons, hp, hj, ihr, -List.filter_filter]
    · by_cases hj : (ev.empId == j) = true
      · simp [List.filter_cons, hp, hj, ihr, -List.filter_filter]
      · simp only [Bool.not_eq_true] at hj
        simp [List.filter_cons, hp, hj, ihr, -List.filter_filter]

lemma history_filter_fresh (l : List Event) (pid : Nat)
    (hfresh : ∀ ev ∈ l, ev.eid ≠ pid) :
    l.filter (fun ev => ev.eid ≠ pid) = l := by
  induction l with
  | nil => rfl
  | cons ev rest ih =>
    rw [List.filter_cons_of_pos
        (by simpa using hfresh ev (List.mem_cons_self _ _)),
      ih (fun e he => hfresh e (List.mem_cons_of_mem _ he))]

/-- On a whole-number balance the deduction loop is exact: it removes `k ≤ n`
whole points and returns the balance `n - k`. -/
lemma catchUp_nat (today perfect : Date) :
    ∀ (nr : Date) (t : ℚ) (r : Nat), ∀ n : ℕ, t = (n : ℚ) →
      ∃ k : ℕ, k ≤ n ∧ (catchUp today perfect nr t r).2.2 = r + k ∧
        (catchUp today perfect nr t r).2.1 = ((n - k : ℕ) : ℚ) := by
  intro nr t r
  induction nr, t, r using catchUp.induct today perfect with
  | case1 nr t r hcond ih =>
    intro n hn
    subst hn
    have hn1 : 1 ≤ n := by
      have := hcond.2
      exact_mod_cast Nat.one_le_iff_ne_zero.mpr (by
        intro h0
        rw [h0] at this
        exact absurd this (by norm_num))
    have htot : (0 : ℚ) ⊔ round2 ((n : ℚ) - 1) = ((n - 1 : ℕ) : ℚ) := by
      have hc : ((n : ℚ) - 1) = ((n - 1 : ℕ) : ℚ) := by
        push_cast [hn1]
        ring
      rw [hc, sumPoints_nat]
      exact max_eq_right (by positivity)
    obtain ⟨k', hk'le, hk'rem, hk'tot⟩ := ih ((n - 1 : ℕ)) htot
    rw [catchUp, dif_pos hcond]
    exact ⟨k' + 1, by omega, by omega,
      by rw [hk'tot]; congr 1; omega⟩
  | case2 nr t r hcond =>
    intro n hn
    rw [catchUp, dif_neg hcond]
    exact ⟨0, Nat.zero_le n, by simp, by simp [hn]⟩

/-- Engine step, no stored due date: nothing happens. -/
lemma processEmployee_none (today : Date) (db : DB) (rows : List AuditRow)
    (rec : Employee) (hro : rec.rolloffDate = none) :
    processEmployee today (db, rows) rec = (db, rows) := by
  unfold processEmployee
  rw [hro]

/-- Engine step, positive balance and at least one deduction: the row's
total and due date are rewritten, one aggregated negative history row is
inserted and one audit row is appended. -/
lemma processEmployee_deduct (today : Date) (db : DB) (rows : List AuditRow)
    (rec : Employee) (nr0 : Date) (hro : rec.rolloffDate = some nr0)
    (hpos : 0 < rec.pointTotal)
    (hrem : 0 < (catchUp today (perfectDateOf rec.lastPointDate) nr0
      rec.pointTotal 0).2.2) :
    processEmployee today (db, rows) rec =
      (let out := catchUp today (perfectDateOf rec.lastPointDate) nr0
        rec.pointTotal 0
       let db1 := updateEmp db rec.empId (fun e =>
         { e with pointTotal := out.2.1, rolloffDate := some out.1 })
       ({ db1 with
          history := db1.history ++
            [⟨db1.nextId, rec.empId, today, -(out.2.2 : ℚ),
              "Auto Rolloff Adjustment",
              "Automatic 2-Month Point Expiration (perfect-month skip)",
              "AUTO"⟩],
          nextId := db1.nextId + 1 },
        rows ++ [⟨rec.empId, rec.lastName, rec.firstName, today, out.2.2,
          out.2.1⟩])) := by
  unfold processEmployee
  rw [hro]
  simp only [if_pos hpos, if_pos hrem]

/-- Engine step, positive balance but no deduction counted: only the due
date may be persisted. (With a positive balance and an overdue date this
branch is unreachable, but the equation holds regardless.) -/
lemma processEmployee_pos_norem (today : Date) (db : DB) (rows : List AuditRow)
    (rec : Employee) (nr0 : Date) (hro : rec.rolloffDate = some nr0)
    (hpos : 0 < rec.pointTotal)
    (hrem : ¬ 0 < (catchUp today (perfectDateOf rec.lastPointDate) nr0
      rec.pointTotal 0).2.2) :
    processEmployee today (db, rows) rec =
      (if (catchUp today (perfectDateOf rec.lastPointDate) nr0
            rec.pointTotal 0).1 ≠ nr0 then
        (updateEmp db rec.empId (fun e =>
          { e with
            rolloffDate := some (catchUp today
              (perfectDateOf rec.lastPointDate) nr0 rec.pointTotal 0).1 }),
         rows)
      else (db, rows)) := by
  unfold processEmployee
  rw [hro]
  simp only [if_pos hpos, if_neg hrem]

/-- Engine step, non-positive balance: only the due date is bumped (when it
moved), nothing else changes. -/
lemma processEmployee_zero (today : Date) (db : DB) (rows : List AuditRow)
    (rec : Employee) (nr0 : Date) (hro : rec.rolloffDate = some nr0)
    (hpos : ¬ 0 < rec.pointTotal) :
    processEmployee today (db, rows) rec =
      (if bumpLoop today (perfectDateOf rec.lastPointDate) nr0 ≠ nr0 then
        (updateEmp db rec.empId (fun e =>
          { e with
            rolloffDate := some (bumpLoop today
              (perfectDateOf rec.lastPointDate) nr0) }),
         rows)
      else (db, rows)) := by
  unfold processEmployee
  rw [hro]
  simp only [if_neg hpos]
  norm_num

lemma filter_append_single_ne (l : List Event) (ev : Event) (j : Nat)
    (h : ev.empId ≠ j) :
    (l ++ [ev]).filter (fun e => e.empId == j) =
      l.filter (fun e => e.empId == j) := by
  rw [List.filter_append]
  have hnil : [ev].filter (fun e => e.empId == j) = [] := by
    simp only [List.filter_cons, List.filter_nil]
    rw [if_neg]
    simp only [beq_iff_eq]
    exact h
  rw [hnil, List.append_nil]

/-- One engine step never changes the set of employee ids. -/
lemma processEmployee_ids (today : Date) (db : DB) (rows : List AuditRow)
    (rec : Employee) :
    (processEmployee today (db, rows) rec).1.employees.map Employee.empId =
      db.employees.map Employee.empId := by
  cases hro : rec.rolloffDate with
  | none => rw [processEmployee_none _ _ _ _ hro]
  | some nr0 =>
    by_cases hpos : 0 < rec.pointTotal
    · by_cases hrem : 0 < (catchUp today (perfectDateOf rec.lastPointDate) nr0
        rec.pointTotal 0).2.2
      · rw [processEmployee_deduct _ _ _ _ _ hro hpos hrem]
        exact updateEmp_ids db rec.empId _ (fun e => rfl)
      · rw [processEmployee_pos_norem _ _ _ _ _ hro hpos hrem]
        split
        · exact updateEmp_ids db rec.empId _ (fun e => rfl)
        · rfl
    · rw [processEmployee_zero _ _ _ _ _ hro hpos]
      split
      · exact updateEmp_ids db rec.empId _ (fun e => rfl)
      · rfl

/-- One engine step never touches another employee's row or events. -/
lemma processEmployee_other (today : Date) (db : DB) (rows : List AuditRow)
    (rec : Employee) (j : Nat) (hj : rec.empId ≠ j) :
    findEmp (processEmployee today (db, rows) rec).1 j = findEmp db j ∧
    empEvents (processEmployee today (db, rows) rec).1 j = empEvents db j := by
  cases hro : rec.rolloffDate with
  | none => rw [processEmployee_none _ _ _ _ hro]; exact ⟨rfl, rfl⟩
  | some nr0 =>
    by_cases hpos : 0 < rec.pointTotal
    · by_cases hrem : 0 < (catchUp today (perfectDateOf rec.lastPointDate) nr0
        rec.pointTotal 0).2.2
      · rw [processEmployee_deduct _ _ _ _ _ hro hpos hrem]
        constructor
        · exact findEmp_updateEmp_ne db rec.empId j _ (fun e => rfl) hj
        · unfold empEvents
          simp only [updateEmp]
          rw [filter_append_single_ne _ _ _ hj]
      · rw [processEmployee_pos_norem _ _ _ _ _ hro hpos hrem]
        split
        · exact ⟨findEmp_updateEmp_ne db rec.empId j _ (fun e => rfl) hj, rfl⟩
        · exact ⟨rfl, rfl⟩
    · rw [processEmployee_zero _ _ _ _ _ hro hpos]
      split
      · exact ⟨findEmp_updateEmp_ne db rec.empId j _ (fun e => rfl) hj, rfl⟩
      · exact ⟨rfl, rfl⟩

lemma filter_append_single_eq (l : List Event) (ev : Event) (j : Nat)
    (h : ev.empId = j) :
    (l ++ [ev]).filter (fun e => e.empId == j) =
      l.filter (fun e => e.empId == j) ++ [ev] := by
  rw [List.filter_append]
  have hone : [ev].filter (fun e => e.empId == j) = [ev] := by
    simp only [List.filter_cons, List.filter_nil]
    rw [if_pos]
    simp only [beq_iff_eq]
    exact h
  rw [hone]

lemma findEmp_set_history (db : DB) (h : List Event) (n : Nat) (j : Nat) :
    findEmp { db with history := h, nextId := n } j = findEmp db j := rfl

/-- One engine step keeps the processed employee's stored total equal to
their ledger sum, provided it was equal before and the balance is a whole
number of points. -/
lemma processEmployee_self_total (today : Date) (db : DB) (rows : List AuditRow)
    (rec : Employee)
    (hfe : findEmp db rec.empId = some rec)
    (hsum : rec.pointTotal = sumPoints (empEvents db rec.empId))
    (hwhole : ∃ n : ℕ, rec.pointTotal = (n : ℚ)) :
    ∀ e', findEmp (processEmployee today (db, rows) rec).1 rec.empId = some e' →
      e'.pointTotal =
        sumPoints (empEvents (processEmployee today (db, rows) rec).1 rec.empId) := by
  intro e' he'
  cases hro : rec.rolloffDate with
  | none =>
    rw [processEmployee_none _ _ _ _ hro] at he' ⊢
    rw [hfe] at he'
    cases he'
    exact hsum
  | some nr0 =>
    by_cases hpos : 0 < rec.pointTotal
    · by_cases hrem : 0 < (catchUp today (perfectDateOf rec.lastPointDate)
        nr0 rec.pointTotal 0).2.2
      · rw [processEmployee_deduct _ _ _ _ _ hro hpos hrem] at he' ⊢
        simp only at he' ⊢
        rw [findEmp_set_history] at he'
        rw [findEmp_updateEmp_self db rec.empId
          (fun e => { e with
            pointTotal := (catchUp today (perfectDateOf rec.lastPointDate)
              nr0 rec.pointTotal 0).2.1,
            rolloffDate := some (catchUp today
              (perfectDateOf rec.lastPointDate) nr0 rec.pointTotal 0).1 })
          (fun e => rfl)] at he'
        rw [hfe] at he'
        simp only [Option.map_some', Option.some.injEq] at he'
        subst he'
        unfold empEvents
        simp only [updateEmp]
        have hfa := filter_append_single_eq db.history
          (⟨db.nextId, rec.empId, today,
            -(((catchUp today (perfectDateOf rec.lastPointDate) nr0
              rec.pointTotal 0).2.2 : ℚ)),
            "Auto Rolloff Adjustment",
            "Automatic 2-Month Point Expiration (perfect-month skip)",
            "AUTO"⟩ : Event) rec.empId rfl
        rw [hfa, sumPoints_append]
        obtain ⟨n, hn⟩ := hwhole
        obtain ⟨k, hkle, hkrem, hktot⟩ :=
          catchUp_nat today (perfectDateOf rec.lastPointDate) nr0
            rec.pointTotal 0 n hn
        show (catchUp today (perfectDateOf rec.lastPointDate) nr0
            rec.pointTotal 0).2.1 =
          sumPoints (List.filter (fun ev => ev.empId == rec.empId) db.history) +
            sumPoints [⟨_, rec.empId, today,
              -(((catchUp today (perfectDateOf rec.lastPointDate) nr0
                rec.pointTotal 0).2.2 : ℚ)), _, _, _⟩]
        have hsum' : sumPoints
            (List.filter (fun ev => ev.empId == rec.empId) db.history) =
            rec.pointTotal := hsum.symm
        rw [hsum', hktot, hkrem, hn]
        show ((n - k : ℕ) : ℚ) = (n : ℚ) + sumPoints [_]
        unfold sumPoints
        simp only [List.foldl_cons, List.foldl_nil]
        push_cast [hkle]
        ring
      · rw [processEmployee_pos_norem _ _ _ _ _ hro hpos hrem] at he' ⊢
        split at he'
        · rw [findEmp_updateEmp_self db rec.empId
            (fun e => { e with
              rolloffDate := some (catchUp today
                (perfectDateOf rec.lastPointDate) nr0 rec.pointTotal 0).1 })
            (fun e => rfl)] at he'
          rw [hfe] at he'
          simp only [Option.map_some', Option.some.injEq] at he'
          subst he'
          rename_i hch
          rw [if_pos hch]
          exact hsum
        · rw [hfe] at he'
          cases he'
          rename_i hch
          rw [if_neg hch]
          exact hsum
    · rw [processEmployee_zero _ _ _ _ _ hro hpos] at he' ⊢
      split at he'
      · rw [findEmp_updateEmp_self db rec.empId
          (fun e => { e with
            rolloffDate := some (bumpLoop today
              (perfectDateOf rec.lastPointDate) nr0) })
          (fun e => rfl)] at he'
        rw [hfe] at he'
        simp only [Option.map_some', Option.some.injEq] at he'
        subst he'
        rename_i hch
        rw [if_pos hch]
        exact hsum
      · rw [hfe] at he'
        cases he'
        rename_i hch
        rw [if_neg hch]
        exact hsum

/-- Folding the engine step over a duplicate-free snapshot of intact rows
with whole-number balances preserves the totals invariant. -/
lemma fold_totalsOk (today : Date) :
    ∀ (l : List Employee) (db : DB) (rows : List AuditRow),
      NodupIds db →
      (∀ rec ∈ l, findEmp db rec.empId = some rec) →
      (l.map Employee.empId).Nodup →
      TotalsOk db →
      (∀ rec ∈ l, ∃ n : ℕ, rec.pointTotal = (n : ℚ)) →
      TotalsOk (l.foldl (processEmployee today) (db, rows)).1 := by
  intro l
  induction l with
  | nil =>
    intro db rows _ _ _ hOk _
    exact hOk
  | cons rec rest ih =>
    intro db rows hN hfind hLN hOk hW
    rw [List.foldl_cons, ← @Prod.mk.eta _ _ (processEmployee today (db, rows) rec)]
    have hNL := List.nodup_cons.mp hLN
    have hids := processEmployee_ids today db rows rec
    have hN1 : NodupIds (processEmployee today (db, rows) rec).1 := by
      unfold NodupIds
      rw [hids]
      exact hN
    apply ih _ _ hN1 _ hNL.2 _ _
    · intro r' hr'
      have hne : rec.empId ≠ r'.empId := by
        intro hc
        exact hNL.1 (hc ▸ List.mem_map_of_mem Employee.empId hr')
      rw [(processEmployee_other today db rows rec r'.empId hne).1]
      exact hfind r' (List.mem_cons_of_mem _ hr')
    · intro e' he'
      have hfe' : findEmp (processEmployee today (db, rows) rec).1 e'.empId =
          some e' := findEmp_of_mem hN1 he'
      by_cases hj : e'.empId = rec.empId
      · rw [hj] at hfe'
        have hrecmem := mem_of_findEmp (hfind rec (List.mem_cons_self _ _))
        have hrsum : rec.pointTotal = sumPoints (empEvents db rec.empId) := by
          have := hOk rec hrecmem.1
          rwa [hrecmem.2] at this
        have := processEmployee_self_total today db rows rec
          (hfind rec (List.mem_cons_self _ _)) hrsum
          (hW rec (List.mem_cons_self _ _)) e' hfe'
        rwa [hj]
      · have hother := processEmployee_other today db rows rec e'.empId
          (fun hc => hj hc.symm)
        rw [hother.1] at hfe'
        have hmem := mem_of_findEmp hfe'
        rw [hother.2]
        exact hOk e' hmem.1
    · intro r' hr'
      exact hW r' (List.mem_cons_of_mem _ hr')

lemma TotalsOk_updateEmp (db : DB) (i : Nat) (f : Employee → Employee)
    (hfid : ∀ e, (f e).empId = e.empId)
    (hft : ∀ e, (f e).pointTotal = sumPoints (empEvents db i))
    (h : ∀ e ∈ db.employees, e.empId ≠ i →
      e.pointTotal = sumPoints (empEvents db e.empId)) :
    TotalsOk (updateEmp db i f) := by
  intro e' he'
  have hhist : ∀ j, empEvents (updateEmp db i f) j = empEvents db j :=
    fun j => rfl
  unfold updateEmp at he'
  rcases List.mem_map.mp he' with ⟨e, he, rfl⟩
  by_cases hei : e.empId = i
  · rw [if_pos (by simpa using hei), hhist, hft, hfid, hei]
  · rw [if_neg (by simpa using hei), hhist]
    exact h e he hei

lemma TotalsOk_recompute (db : DB) (i : Nat)
    (h : ∀ e ∈ db.employees, e.empId ≠ i →
      e.pointTotal = sumPoints (empEvents db e.empId)) :
    TotalsOk (recompute_employee_after_change db i) := by
  unfold recompute_employee_after_change
  cases hmx : maxDate (empEvents db i) with
  | none =>
    simp only [hmx]
    exact TotalsOk_updateEmp db i _ (fun e => rfl) (fun e => rfl) h
  | some d =>
    simp only [hmx]
    exact TotalsOk_updateEmp db i _ (fun e => rfl) (fun e => rfl) h

lemma TotalsOk_delete (db : DB) (pid i : Nat)
    (hown : ∀ ev ∈ db.history, ev.eid = pid → ev.empId = i)
    (hOk : TotalsOk db) :
    TotalsOk (delete_selected db pid i) := by
  unfold delete_selected
  apply TotalsOk_recompute
  intro e he hei
  have heq : empEvents
      { db with history := db.history.filter (fun ev => ev.eid ≠ pid) }
      e.empId = empEvents db e.empId := by
    unfold empEvents
    exact empEvents_filter_ne db.history pid i e.empId hei hown
  rw [heq]
  exact hOk e he

/-- C2 (amended): the stored aggregate total equals the ledger sum after
adding an event, after deleting an event of the recomputed employee and
after undoing an add; after an Auto-Expiration run the equality is kept
provided every stored total is a whole number of points (the run's flooring
at zero cannot then lose fractional points). The counterexample shows the
claim as stated fails for fractional balances. -/
theorem C2_amended_total_invariant :
    (∀ (db : DB) (stack : List UndoEntry) (i : Nat) (s : String) (pts : ℚ)
       (r nt fl : String) (db' : DB) (stack' : List UndoEntry),
       _add_point db stack i s pts r nt fl = .ok (db', stack') →
       TotalsOk db → TotalsOk db') ∧
    (∀ (db : DB) (pid i : Nat), TotalsOk db →
       (∀ ev ∈ db.history, ev.eid = pid → ev.empId = i) →
       TotalsOk (delete_selected db pid i)) ∧
    (∀ (db : DB) (stack : List UndoEntry), TotalsOk db →
       (∀ entry ∈ stack, ∀ ev ∈ db.history, ev.eid = entry.pointId →
          ev.empId = entry.empId) →
       TotalsOk (_undo_point db stack).1) ∧
    (∀ (db : DB) (today : Date), TotalsOk db → NodupIds db → WholeTotals db →
       TotalsOk (auto_expire_points db today).1) := by
  refine ⟨?_, ?_, ?_, ?_⟩
  · intro db stack i s pts r nt fl db' stack' hadd hOk
    cases hfe : findEmp db i with
    | none =>
      unfold _add_point at hadd
      simp only [hfe] at hadd
      exact Except.noConfusion hadd
    | some old =>
      cases hp : parse_us_to_iso s with
      | none =>
        unfold _add_point at hadd
        simp only [hfe, hp] at hadd
        exact Except.noConfusion hadd
      | some d =>
        by_cases hm : pts = 1/2 ∨ pts = 1 ∨ pts = 3/2
        · by_cases hr : trimChars r.data = []
          · unfold _add_point at hadd
            simp only [hfe, hp, if_pos hm, if_pos hr] at hadd
            exact Except.noConfusion hadd
          · rw [_add_point_ok db stack i s pts r nt fl old d hfe hp hm hr] at hadd
            simp only [Except.ok.injEq, Prod.mk.injEq] at hadd
            obtain ⟨hdb', -⟩ := hadd
            subst hdb'
            intro e' he'
            unfold updateEmp at he'
            rcases List.mem_map.mp he' with ⟨e, he, rfl⟩
            have hhist : ∀ (f : Employee → Employee) (j : Nat),
                empEvents (updateEmp { db with
                  history := db.history ++
                    [(⟨db.nextId, i, d, pts, r, nt, fl⟩ : Event)],
                  nextId := db.nextId + 1 } i f) j =
                (db.history ++
                  [(⟨db.nextId, i, d, pts, r, nt, fl⟩ : Event)]).filter
                  (fun ev => ev.empId == j) := fun f j => rfl
            by_cases hei : e.empId = i
            · rw [if_pos (by simpa using hei)]
              simp only
              rw [hhist _ e.empId,
                filter_append_single_eq db.history
                  (⟨db.nextId, i, d, pts, r, nt, fl⟩ : Event) e.empId hei.symm,
                sumPoints_append]
              have h1 := hOk e he
              show e.pointTotal + pts = sumPoints (empEvents db e.empId) +
                sumPoints [(⟨db.nextId, i, d, pts, r, nt, fl⟩ : Event)]
              rw [← h1]
              unfold sumPoints
              simp only [List.foldl_cons, List.foldl_nil]
              ring
            · rw [if_neg (by simpa using hei)]
              rw [hhist _ e.empId,
                filter_append_single_ne db.history
                  (⟨db.nextId, i, d, pts, r, nt, fl⟩ : Event) e.empId
                  (fun hc => hei hc.symm)]
              exact hOk e he
        · unfold _add_point at hadd
          simp only [hfe, hp, if_neg hm] at hadd
          exact Except.noConfusion hadd
  · intro db pid i hOk hown
    exact TotalsOk_delete db pid i hown hOk
  · intro db stack hOk hown
    cases stack with
    | nil => exact hOk
    | cons entry rest =>
      exact TotalsOk_delete db entry.pointId entry.empId
        (hown entry (List.mem_cons_self _ _)) hOk
  · intro db today hOk hN hW
    unfold auto_expire_points
    apply fold_totalsOk today (selectExpired db today) db [] hN
    · intro rec hrec
      exact findEmp_of_mem hN (List.mem_of_mem_filter hrec)
    · have hsub : ((selectExpired db today).map Employee.empId).Sublist
          (db.employees.map Employee.empId) :=
        (List.filter_sublist db.employees).map Employee.empId
      exact hN.sublist hsub
    · exact hOk
    · intro rec hrec
      exact hW rec (List.mem_of_mem_filter hrec)

/-- Input for the C2 counterexample: one employee with a consistent
fractional balance of 0.5 (one 0.5 infraction dated 2025-01-10), roll-off
due 2025-04-01, run on today = 2025-04-02. -/
def C2db : DB :=
  ⟨[⟨1, "Doe", "Jane", mkRat 1 2, some ⟨2025, 1, 10⟩, some ⟨2025, 4, 1⟩,
     some ⟨2025, 5, 1⟩⟩],
   [⟨1, 1, ⟨2025, 1, 10⟩, mkRat 1 2, "Absence", "", ""⟩], 2⟩

/-- C2 counterexample: starting from a state where the stored total equals
the ledger sum (0.5), a complete engine run floors the deduction at zero —
the stored total becomes 0 while the remaining ledger events sum to −0.5.
The aggregate is no longer re-derivable from the ledger. -/
theorem C2_counterexample :
    (findEmp C2db 1).map Employee.pointTotal =
      some (sumPoints (empEvents C2db 1)) ∧
    (findEmp (auto_expire_points C2db ⟨2025, 4, 2⟩).1 1).map
      Employee.pointTotal = some (0 : ℚ) ∧
    sumPoints (empEvents (auto_expire_points C2db ⟨2025, 4, 2⟩).1 1) =
      -(1/2 : ℚ) ∧
    (0 : ℚ) ≠ -(1/2 : ℚ) := by
  have hble : Date.ble ⟨2025, 4, 1⟩ ⟨2025, 4, 2⟩ = true := by decide
  have hstep : step_next_due ⟨2025, 4, 1⟩ ⟨2025, 5, 1⟩ = ⟨2025, 8, 1⟩ := by
    decide
  have hperf : perfectDateOf (some ⟨2025, 1, 10⟩) = ⟨2025, 5, 1⟩ := by decide
  have hhalf : (0 : ℚ) < mkRat 1 2 := by
    rw [Rat.mkRat_eq_div]
    norm_num
  have hround : max (0 : ℚ) (round2 (mkRat 1 2 - 1)) = 0 := by
    rw [Rat.mkRat_eq_div]
    norm_num [round2, max_def]
  have hcu : catchUp ⟨2025, 4, 2⟩ ⟨2025, 5, 1⟩ ⟨2025, 4, 1⟩ (mkRat 1 2) 0 =
      (⟨2025, 8, 1⟩, 0, 1) := by
    rw [catchUp, dif_pos ⟨hble, hhalf⟩, hstep, hround]
    rw [catchUp, dif_neg]
    rintro ⟨-, hlt⟩
    exact absurd hlt (by norm_num)
  have hsel : selectExpired C2db ⟨2025, 4, 2⟩ =
      [⟨1, "Doe", "Jane", mkRat 1 2, some ⟨2025, 1, 10⟩, some ⟨2025, 4, 1⟩,
        some ⟨2025, 5, 1⟩⟩] := by decide
  have hrun : auto_expire_points C2db ⟨2025, 4, 2⟩ =
      (⟨[⟨1, "Doe", "Jane", 0, some ⟨2025, 1, 10⟩, some ⟨2025, 8, 1⟩,
          some ⟨2025, 5, 1⟩⟩],
        [⟨1, 1, ⟨2025, 1, 10⟩, mkRat 1 2, "Absence", "", ""⟩,
         ⟨2, 1, ⟨2025, 4, 2⟩, -1, "Auto Rolloff Adjustment",
          "Automatic 2-Month Point Expiration (perfect-month skip)", "AUTO"⟩],
        3⟩,
       [⟨1, "Doe", "Jane", ⟨2025, 4, 2⟩, 1, 0⟩]) := by
    unfold auto_expire_points
    rw [hsel]
    simp only [List.foldl]
    unfold processEmployee
    simp only [hperf, hcu, if_pos hhalf, C2db, updateEmp, List.map,
      if_pos (show (0 : Nat) < 1 by norm_num)]
    norm_num
  refine ⟨?_, ?_, ?_, by norm_num⟩
  · show some (mkRat 1 2) = some (sumPoints (empEvents C2db 1))
    have : sumPoints (empEvents C2db 1) = mkRat 1 2 := by
      show (0 : ℚ) + mkRat 1 2 = mkRat 1 2
      ring
    rw [this]
  · rw [hrun]
    rfl
  · rw [hrun]
    show (0 : ℚ) + mkRat 1 2 + -1 = -(1/2 : ℚ)
    rw [Rat.mkRat_eq_div]
    norm_num

/-- Concrete whole-balance state for the C2 witness: one employee, total
1.0 backed by one 1.0 infraction, roll-off long overdue. -/
def C2wdb : DB :=
  ⟨[⟨1, "Doe", "Jane", 1, some ⟨2024, 12, 15⟩, some ⟨2025, 3, 1⟩,
     some ⟨2025, 4, 1⟩⟩],
   [⟨1, 1, ⟨2024, 12, 15⟩, 1, "Absence", "", ""⟩], 2⟩

/-- Witness for the amended C2: on a whole-balance state the engine run
keeps every stored total equal to its ledger sum. -/
theorem C2_amended_total_invariant_witness :
    TotalsOk (auto_expire_points C2wdb ⟨2025, 8, 10⟩).1 := by
  apply C2_amended_total_invariant.2.2.2 C2wdb ⟨2025, 8, 10⟩
  · intro e he
    rcases List.mem_singleton.mp he with rfl
    show (1 : ℚ) = (0 : ℚ) + 1
    ring
  · unfold NodupIds
    decide
  · intro e he
    rcases List.mem_singleton.mp he with rfl
    exact ⟨1, by norm_num⟩

/-- C4 (amended): adding a point event and immediately undoing it restores
the employee's stored total and last-infraction-date provided the stored
aggregate agreed with the ledger before the add (total = sum of the
employee's events, last date = max date over ALL the employee's events,
null if none) and the new event's id is fresh. In general the undo restores
the ledger-derived values, not the previously stored ones. -/
theorem C4_amended_restore (db : DB) (stack : List UndoEntry) (i : Nat)
    (s : String) (pts : ℚ) (r nt fl : String) (db' : DB)
    (stack' : List UndoEntry) (emp : Employee)
    (hfe : findEmp db i = some emp)
    (hadd : _add_point db stack i s pts r nt fl = .ok (db', stack'))
    (hfresh : ∀ ev ∈ db.history, ev.eid ≠ db.nextId)
    (hsum : emp.pointTotal = sumPoints (empEvents db i))
    (hmax : emp.lastPointDate = maxDate (empEvents db i)) :
    ∀ e'', findEmp (_undo_point db' stack').1 i = some e'' →
      e''.pointTotal = emp.pointTotal ∧
      e''.lastPointDate = emp.lastPointDate := by
  intro e'' he''
  cases hp : parse_us_to_iso s with
  | none =>
    unfold _add_point at hadd
    simp only [hfe, hp] at hadd
    exact Except.noConfusion hadd
  | some d =>
    by_cases hm : pts = 1/2 ∨ pts = 1 ∨ pts = 3/2
    · by_cases hr : trimChars r.data = []
      · unfold _add_point at hadd
        simp only [hfe, hp, if_pos hm, if_pos hr] at hadd
        exact Except.noConfusion hadd
      · rw [_add_point_ok2 db stack i s pts r nt fl emp d hfe hp hm hr] at hadd
        simp only [Except.ok.injEq, Prod.mk.injEq] at hadd
        obtain ⟨hdb', hstack'⟩ := hadd
        subst hdb'
        subst hstack'
        unfold pushUndo _undo_point at he''
        simp only at he''
        have hh : (postAddDB db i d pts r nt fl).history.filter
            (fun ev => ev.eid ≠ db.nextId) = db.history := by
          rw [postAdd_history, List.filter_append,
            history_filter_fresh db.history db.nextId hfresh]
          have hone : ([(⟨db.nextId, i, d, pts, r, nt, fl⟩ : Event)].filter
              (fun ev => ev.eid ≠ db.nextId)) = [] := by simp
          rw [hone, List.append_nil]
        rw [recompute_findEmp] at he''
        have hee : ∀ j : Nat, empEvents
            { postAddDB db i d pts r nt fl with
              history := (postAddDB db i d pts r nt fl).history.filter
                (fun ev => ev.eid ≠ db.nextId) } j = empEvents db j := by
          intro j
          unfold empEvents
          simp only
          rw [hh]
        simp only [hee] at he''
        have hff : findEmp
            { postAddDB db i d pts r nt fl with
              history := (postAddDB db i d pts r nt fl).history.filter
                (fun ev => ev.eid ≠ db.nextId) } i =
            (findEmp db i).map (addUpd pts d) := by
          rw [show findEmp
              { postAddDB db i d pts r nt fl with
                history := (postAddDB db i d pts r nt fl).history.filter
                  (fun ev => ev.eid ≠ db.nextId) } i =
              findEmp (postAddDB db i d pts r nt fl) i from rfl]
          exact findEmp_postAdd db i d pts r nt fl
        rw [hff, hfe] at he''
        simp only [Option.map_some'] at he''
        cases hmx : maxDate (empEvents db i) with
        | none =>
          rw [hmx] at he''
          simp only [Option.some.injEq] at he''
          subst he''
          exact ⟨hsum.symm, by rw [hmax, hmx]⟩
        | some mx =>
          rw [hmx] at he''
          simp only [Option.some.injEq] at he''
          subst he''
          exact ⟨hsum.symm, by rw [hmax, hmx]⟩
    · unfold _add_point at hadd
      simp only [hfe, hp, if_neg hm] at hadd
      exact Except.noConfusion hadd

/-- Initial state for the C4 counterexample: employee 1, empty ledger. -/
def C4db0 : DB := ⟨[⟨1, "Doe", "Jane", 0, none, none, none⟩], [], 1⟩

/-- C4 state after adding a 1.0 infraction dated 2025-03-10. -/
def C4db1 : DB :=
  ⟨[⟨1, "Doe", "Jane", 1, some ⟨2025, 3, 10⟩, some ⟨2025, 6, 1⟩, some ⟨2025, 7, 1⟩⟩],
   [⟨1, 1, ⟨2025, 3, 10⟩, 1, "Absence", "", ""⟩], 2⟩

/-- C4 undo stack after the first add. -/
def C4stk1 : List UndoEntry := [⟨1, 1, 1, 0, none⟩]

/-- C4 state after further adding a 1.0 infraction backdated to 2025-01-05. -/
def C4db2 : DB :=
  ⟨[⟨1, "Doe", "Jane", 2, some ⟨2025, 1, 5⟩, some ⟨2025, 4, 1⟩, some ⟨2025, 5, 1⟩⟩],
   [⟨1, 1, ⟨2025, 3, 10⟩, 1, "Absence", "", ""⟩,
    ⟨2, 1, ⟨2025, 1, 5⟩, 1, "Absence", "", ""⟩], 3⟩

/-- C4 undo stack after the second add. -/
def C4stk2 : List UndoEntry :=
  [⟨2, 1, 1, 1, some ⟨2025, 3, 10⟩⟩, ⟨1, 1, 1, 0, none⟩]

/-- C4 state after adding a 0.5 infraction dated 2025-02-01. -/
def C4db3 : DB :=
  ⟨[⟨1, "Doe", "Jane", mkRat 5 2, some ⟨2025, 2, 1⟩, some ⟨2025, 5, 1⟩,
     some ⟨2025, 6, 1⟩⟩],
   [⟨1, 1, ⟨2025, 3, 10⟩, 1, "Absence", "", ""⟩,
    ⟨2, 1, ⟨2025, 1, 5⟩, 1, "Absence", "", ""⟩,
    ⟨3, 1, ⟨2025, 2, 1⟩, mkRat 1 2, "Tardy", "", ""⟩], 4⟩

/-- C4 undo stack after the third add. -/
def C4stk3 : List UndoEntry := ⟨3, 1, mkRat 1 2, 2, some ⟨2025, 1, 5⟩⟩ :: C4stk2

/-- C4 intermediate state: the third event deleted again by the undo. -/
def C4mid : DB :=
  ⟨[⟨1, "Doe", "Jane", mkRat 5 2, some ⟨2025, 2, 1⟩, some ⟨2025, 5, 1⟩,
     some ⟨2025, 6, 1⟩⟩],
   [⟨1, 1, ⟨2025, 3, 10⟩, 1, "Absence", "", ""⟩,
    ⟨2, 1, ⟨2025, 1, 5⟩, 1, "Absence", "", ""⟩], 4⟩

/-- C4 state after the undo recomputes employee 1. -/
def C4db4 : DB :=
  ⟨[⟨1, "Doe", "Jane", 2, some ⟨2025, 3, 10⟩, some ⟨2025, 6, 1⟩, some ⟨2025, 7, 1⟩⟩],
   [⟨1, 1, ⟨2025, 3, 10⟩, 1, "Absence", "", ""⟩,
    ⟨2, 1, ⟨2025, 1, 5⟩, 1, "Absence", "", ""⟩], 4⟩

/-- C4 counterexample: all states reached by valid adds. Before the third
add the stored aggregate is total 2, last date 2025-01-05 (the backdated
anchor). Adding 0.5 on 2025-02-01 and undoing it restores the total (2)
but sets the last-infraction-date to 2025-03-10 — the ledger maximum, not
the stored pre-add value — refuting the claim for this prior state. -/
theorem C4_counterexample :
    _add_point C4db0 [] 1 "03-10-2025" 1 "Absence" "" "" = .ok (C4db1, C4stk1) ∧
    _add_point C4db1 C4stk1 1 "01-05-2025" 1 "Absence" "" "" = .ok (C4db2, C4stk2) ∧
    _add_point C4db2 C4stk2 1 "02-01-2025" (mkRat 1 2) "Tardy" "" "" =
      .ok (C4db3, C4stk3) ∧
    _undo_point C4db3 C4stk3 = (C4db4, C4stk2) ∧
    (findEmp C4db2 1).map Employee.pointTotal = some 2 ∧
    (findEmp C4db2 1).map Employee.lastPointDate = some (some ⟨2025, 1, 5⟩) ∧
    (findEmp C4db4 1).map Employee.pointTotal = some 2 ∧
    (findEmp C4db4 1).map Employee.lastPointDate = some (some ⟨2025, 3, 10⟩) ∧
    some (⟨2025, 3, 10⟩ : Date) ≠ some (⟨2025, 1, 5⟩ : Date) := by
  refine ⟨?_, ?_, ?_, ?_, by decide, by decide, by decide, by decide, by decide⟩
  · rw [_add_point_ok C4db0 [] 1 "03-10-2025" 1 "Absence" "" ""
        ⟨1, "Doe", "Jane", 0, none, none, none⟩ ⟨2025, 3, 10⟩
        (by decide) (by decide) (by norm_num) (by decide)]
    simp only [C4db0, C4db1, C4stk1, updateEmp, pushUndo, MAX_UNDO_HISTORY]
    norm_num
    decide
  · rw [_add_point_ok C4db1 C4stk1 1 "01-05-2025" 1 "Absence" "" ""
        ⟨1, "Doe", "Jane", 1, some ⟨2025, 3, 10⟩, some ⟨2025, 6, 1⟩,
         some ⟨2025, 7, 1⟩⟩ ⟨2025, 1, 5⟩
        (by decide) (by decide) (by norm_num) (by decide)]
    simp only [C4db1, C4db2, C4stk1, C4stk2, updateEmp, pushUndo, MAX_UNDO_HISTORY]
    norm_num
    decide
  · rw [_add_point_ok C4db2 C4stk2 1 "02-01-2025" (mkRat 1 2) "Tardy" "" ""
        ⟨1, "Doe", "Jane", 2, some ⟨2025, 1, 5⟩, some ⟨2025, 4, 1⟩,
         some ⟨2025, 5, 1⟩⟩ ⟨2025, 2, 1⟩
        (by decide) (by decide)
        (Or.inl (by rw [Rat.mkRat_eq_div]; norm_num)) (by decide)]
    simp only [C4db2, C4db3, C4stk2, C4stk3, updateEmp, pushUndo, MAX_UNDO_HISTORY]
    norm_num [Rat.mkRat_eq_div]
    decide
  · have hfil : ({ C4db3 with
        history := C4db3.history.filter (fun ev => ev.eid ≠ (3 : Nat)) } : DB) =
        C4mid := by decide
    have hmx : maxDate (empEvents C4mid 1) = some ⟨2025, 3, 10⟩ := by decide
    have hsum : sumPoints (empEvents C4mid 1) = 2 := by
      show (0 : ℚ) + 1 + 1 = 2
      norm_num
    have hcrp : calc_rolloff_and_perfect ⟨2025, 3, 10⟩ =
        (⟨2025, 6, 1⟩, ⟨2025, 7, 1⟩) := by decide
    have hrec : recompute_employee_after_change C4mid 1 = C4db4 := by
      unfold recompute_employee_after_change
      simp only [hmx, hsum, hcrp]
      simp only [C4mid, C4db4, updateEmp, List.map]
      norm_num
    simp only [C4stk3]
    unfold _undo_point
    simp only
    rw [hfil, hrec]

/-- Consistent single-employee state for the C4 witness. -/
def C4wdb : DB :=
  ⟨[⟨1, "Doe", "Jane", 1, some ⟨2025, 1, 10⟩, some ⟨2025, 4, 1⟩, some ⟨2025, 5, 1⟩⟩],
   [⟨1, 1, ⟨2025, 1, 10⟩, 1, "Absence", "", ""⟩], 2⟩

/-- Witness for the amended C4: on a recompute-consistent state, an add
followed by an undo restores the stored total and last-infraction-date. -/
theorem C4_amended_restore_witness :
    (⟨1, "Doe", "Jane", 0 + 1, some ⟨2025, 1, 10⟩, some ⟨2025, 4, 1⟩,
      some ⟨2025, 5, 1⟩⟩ : Employee).pointTotal =
      (⟨1, "Doe", "Jane", 1, some ⟨2025, 1, 10⟩, some ⟨2025, 4, 1⟩,
        some ⟨2025, 5, 1⟩⟩ : Employee).pointTotal ∧
    (⟨1, "Doe", "Jane", 0 + 1, some ⟨2025, 1, 10⟩, some ⟨2025, 4, 1⟩,
      some ⟨2025, 5, 1⟩⟩ : Employee).lastPointDate =
      (⟨1, "Doe", "Jane", 1, some ⟨2025, 1, 10⟩, some ⟨2025, 4, 1⟩,
        some ⟨2025, 5, 1⟩⟩ : Employee).lastPointDate :=
  C4_amended_restore C4wdb [] 1 "02-01-2025" 1 "Tardy" "" ""
    (postAddDB C4wdb 1 ⟨2025, 2, 1⟩ 1 "Tardy" "" "")
    (pushUndo ⟨2, 1, 1, 1, some ⟨2025, 1, 10⟩⟩ [])
    ⟨1, "Doe", "Jane", 1, some ⟨2025, 1, 10⟩, some ⟨2025, 4, 1⟩, some ⟨2025, 5, 1⟩⟩
    (by decide)
    (_add_point_ok2 C4wdb [] 1 "02-01-2025" 1 "Tardy" "" ""
      ⟨1, "Doe", "Jane", 1, some ⟨2025, 1, 10⟩, some ⟨2025, 4, 1⟩, some ⟨2025, 5, 1⟩⟩
      ⟨2025, 2, 1⟩ (by decide) (by decide) (by norm_num) (by decide))
    (by decide)
    (by show (1 : ℚ) = 0 + 1; ring) (by decide)
    ⟨1, "Doe", "Jane", 0 + 1, some ⟨2025, 1, 10⟩, some ⟨2025, 4, 1⟩,
     some ⟨2025, 5, 1⟩⟩ (by rfl)

/-- An employee row that cannot trigger a deduction today: if its due date
is on or before today, its balance is non-positive. -/
def NotDue (today : Date) (e : Employee) : Prop :=
  ∀ r, e.rolloffDate = some r → r.ble today = true → e.pointTotal ≤ 0

/-- After processing a selected (overdue) employee, the stored row cannot
trigger another deduction today. -/
lemma processEmployee_notdue (today : Date) (db : DB) (rows : List AuditRow)
    (rec : Employee) (nr0 : Date)
    (hro : rec.rolloffDate = some nr0) (hble : nr0.ble today = true) :
    ∀ e', findEmp (processEmployee today (db, rows) rec).1 rec.empId = some e' →
      NotDue today e' := by
  intro e' he'
  by_cases hpos : 0 < rec.pointTotal
  · by_cases hrem : 0 < (catchUp today (perfectDateOf rec.lastPointDate) nr0
      rec.pointTotal 0).2.2
    · rw [processEmployee_deduct _ _ _ _ _ hro hpos hrem] at he'
      simp only at he'
      rw [findEmp_set_history] at he'
      rw [findEmp_updateEmp_self db rec.empId
        (fun e => { e with
          pointTotal := (catchUp today (perfectDateOf rec.lastPointDate) nr0
            rec.pointTotal 0).2.1,
          rolloffDate := some (catchUp today (perfectDateOf rec.lastPointDate)
            nr0 rec.pointTotal 0).1 })
        (fun e => rfl)] at he'
      cases hfe : findEmp db rec.empId with
      | none => rw [hfe] at he'; simp at he'
      | some old =>
        rw [hfe] at he'
        simp only [Option.map_some', Option.some.injEq] at he'
        subst he'
        intro r hr hrble
        simp only [Option.some.injEq] at hr
        subst hr
        have hex := catchUp_exit today (perfectDateOf rec.lastPointDate) nr0
          rec.pointTotal 0
        by_contra hlt
        push_neg at hlt
        exact hex ⟨hrble, hlt⟩
    · exact absurd (catchUp_removed_pos today (perfectDateOf rec.lastPointDate)
        nr0 rec.pointTotal 0 ⟨hble, hpos⟩) hrem
  · rw [processEmployee_zero _ _ _ _ _ hro hpos] at he'
    have hbb := bumpLoop_not_ble today (perfectDateOf rec.lastPointDate) nr0
    have hne : bumpLoop today (perfectDateOf rec.lastPointDate) nr0 ≠ nr0 := by
      intro hc
      rw [hc, hble] at hbb
      exact Bool.noConfusion hbb
    rw [if_pos hne] at he'
    rw [findEmp_updateEmp_self db rec.empId
      (fun e => { e with
        rolloffDate := some (bumpLoop today (perfectDateOf rec.lastPointDate)
          nr0) })
      (fun e => rfl)] at he'
    cases hfe : findEmp db rec.empId with
    | none => rw [hfe] at he'; simp at he'
    | some old =>
      rw [hfe] at he'
      simp only [Option.map_some', Option.some.injEq] at he'
      subst he'
      intro r hr hrble
      simp only [Option.some.injEq] at hr
      subst hr
      rw [hbb] at hrble
      exact Bool.noConfusion hrble

/-- Folding the engine over overdue rows leaves every stored row either
unable to deduct again today, or untouched with an id outside the list. -/
lemma fold_notdue (today : Date) :
    ∀ (l : List Employee) (db : DB) (rows : List AuditRow),
      (∀ rec ∈ l, ∃ nr0, rec.rolloffDate = some nr0 ∧ nr0.ble today = true) →
      ∀ j e', findEmp (l.foldl (processEmployee today) (db, rows)).1 j = some e' →
        NotDue today e' ∨
          (findEmp db j = some e' ∧ j ∉ l.map Employee.empId) := by
  intro l
  induction l with
  | nil =>
    intro db rows _ j e' h
    exact Or.inr ⟨h, by simp⟩
  | cons rec rest ih =>
    intro db rows hsel j e' h
    rw [List.foldl_cons,
      ← @Prod.mk.eta _ _ (processEmployee today (db, rows) rec)] at h
    rcases ih _ _ (fun r hr => hsel r (List.mem_cons_of_mem _ hr)) j e' h with
      hnd | ⟨hfind, hnot⟩
    · exact Or.inl hnd
    · by_cases hj : j = rec.empId
      · subst hj
        obtain ⟨nr0, hro, hble⟩ := hsel rec (List.mem_cons_self _ _)
        exact Or.inl (processEmployee_notdue today db rows rec nr0 hro hble e'
          hfind)
      · rw [(processEmployee_other today db rows rec j
          (fun hc => hj hc.symm)).1] at hfind
        refine Or.inr ⟨hfind, ?_⟩
        simp only [List.map_cons, List.mem_cons]
        rintro (hc | hc)
        · exact hj hc
        · exact hnot hc

/-- Folding the engine step preserves the id list. -/
lemma fold_ids (today : Date) :
    ∀ (l : List Employee) (db : DB) (rows : List AuditRow),
      (l.foldl (processEmployee today) (db, rows)).1.employees.map
        Employee.empId = db.employees.map Employee.empId := by
  intro l
  induction l with
  | nil => intro db rows; rfl
  | cons rec rest ih =>
    intro db rows
    rw [List.foldl_cons,
      ← @Prod.mk.eta _ _ (processEmployee today (db, rows) rec)]
    rw [ih]
    exact processEmployee_ids today db rows rec

lemma engine_nodup (db : DB) (today : Date) (hN : NodupIds db) :
    NodupIds (auto_expire_points db today).1 := by
  unfold NodupIds auto_expire_points
  rw [fold_ids]
  exact hN

/-- After an engine run, every stored row whose due date is on or before
today has a non-positive balance. -/
lemma engine_post_total (db : DB) (today : Date) (hN : NodupIds db) :
    ∀ e ∈ (auto_expire_points db today).1.employees,
      ∀ r, e.rolloffDate = some r → r.ble today = true → e.pointTotal ≤ 0 := by
  intro e he r hr hble
  have hN1 : NodupIds (auto_expire_points db today).1 := engine_nodup db today hN
  have hfe := findEmp_of_mem hN1 he
  have hnotdue := fold_notdue today (selectExpired db today) db []
    (fun rec hrec => by
      have hpred := List.of_mem_filter hrec
      cases hro : rec.rolloffDate with
      | none =>
        simp only [hro] at hpred
        exact Bool.noConfusion hpred
      | some r0 =>
        simp only [hro] at hpred
        exact ⟨r0, rfl, hpred⟩)
    e.empId e hfe
  rcases hnotdue with hnd | ⟨hfind, hnot⟩
  · exact hnd r hr hble
  · have hmem := (mem_of_findEmp hfind).1
    have hsel : e ∈ selectExpired db today := by
      apply List.mem_filter.mpr
      refine ⟨hmem, ?_⟩
      simp only [hr]
      exact hble
    exact absurd (List.mem_map_of_mem Employee.empId hsel) hnot

/-- Folding the engine over rows with non-positive balances touches only
due dates: no history rows, no audit rows, no total changes. -/
lemma fold_no_deduction (today : Date) :
    ∀ (l : List Employee) (db : DB) (rows : List AuditRow),
      (∀ rec ∈ l, rec.pointTotal ≤ 0) →
      (l.foldl (processEmployee today) (db, rows)).1.history = db.history ∧
      (l.foldl (processEmployee today) (db, rows)).2 = rows ∧
      (l.foldl (processEmployee today) (db, rows)).1.employees.map
        Employee.pointTotal = db.employees.map Employee.pointTotal := by
  intro l
  induction l with
  | nil => intro db rows _; exact ⟨rfl, rfl, rfl⟩
  | cons rec rest ih =>
    intro db rows hle
    rw [List.foldl_cons,
      ← @Prod.mk.eta _ _ (processEmployee today (db, rows) rec)]
    obtain ⟨h1, h2, h3⟩ := ih (processEmployee today (db, rows) rec).1
      (processEmployee today (db, rows) rec).2
      (fun r hr => hle r (List.mem_cons_of_mem _ hr))
    have hstep : (processEmployee today (db, rows) rec).1.history = db.history ∧
        (processEmployee today (db, rows) rec).2 = rows ∧
        (processEmployee today (db, rows) rec).1.employees.map
          Employee.pointTotal = db.employees.map Employee.pointTotal := by
      cases hro : rec.rolloffDate with
      | none =>
        rw [processEmployee_none _ _ _ _ hro]
        exact ⟨rfl, rfl, rfl⟩
      | some nr0 =>
        have hpos : ¬ 0 < rec.pointTotal :=
          not_lt.mpr (hle rec (List.mem_cons_self _ _))
        rw [processEmployee_zero _ _ _ _ _ hro hpos]
        split
        · exact ⟨rfl, rfl, updateEmp_totals db rec.empId _ (fun e => rfl)⟩
        · exact ⟨rfl, rfl, rfl⟩
    exact ⟨h1.trans hstep.1, h2.trans hstep.2.1, h3.trans hstep.2.2⟩

/-- C5: running the Auto-Expiration engine a second time on the same day is
a no-op in the claim's sense: the second run produces no audit rows, inserts
no ledger events and changes no stored totals (it can only bump still-overdue
due dates of zero-balance employees, which involves no deduction). -/
theorem C5_second_run_no_deductions (db : DB) (today : Date)
    (hN : NodupIds db) :
    (auto_expire_points (auto_expire_points db today).1 today).2 = [] ∧
    (auto_expire_points (auto_expire_points db today).1 today).1.history =
      (auto_expire_points db today).1.history ∧
    (auto_expire_points (auto_expire_points db today).1 today).1.employees.map
      Employee.pointTotal =
      (auto_expire_points db today).1.employees.map Employee.pointTotal := by
  have hsel : ∀ rec ∈ selectExpired (auto_expire_points db today).1 today,
      rec.pointTotal ≤ 0 := by
    intro rec hrec
    have hmem := List.mem_of_mem_filter hrec
    have hpred := List.of_mem_filter hrec
    cases hro : rec.rolloffDate with
    | none =>
      simp only [hro] at hpred
      exact Bool.noConfusion hpred
    | some r =>
      simp only [hro] at hpred
      exact engine_post_total db today hN rec hmem r hro hpred
  obtain ⟨h1, h2, h3⟩ := fold_no_deduction today
    (selectExpired (auto_expire_points db today).1 today)
    (auto_expire_points db today).1 [] hsel
  exact ⟨h2, h1, h3⟩

/-- Concrete state for the C5 witness: one overdue employee with a positive
balance. -/
def C5wdb : DB :=
  ⟨[⟨1, "Doe", "Jane", 1, some ⟨2024, 12, 15⟩, some ⟨2025, 3, 1⟩,
     some ⟨2025, 4, 1⟩⟩],
   [⟨1, 1, ⟨2024, 12, 15⟩, 1, "Absence", "", ""⟩], 2⟩

/-- Witness for C5 at a concrete state and date. -/
theorem C5_second_run_no_deductions_witness :
    (auto_expire_points (auto_expire_points C5wdb ⟨2025, 8, 10⟩).1
      ⟨2025, 8, 10⟩).2 = [] ∧
    (auto_expire_points (auto_expire_points C5wdb ⟨2025, 8, 10⟩).1
      ⟨2025, 8, 10⟩).1.history =
      (auto_expire_points C5wdb ⟨2025, 8, 10⟩).1.history ∧
    (auto_expire_points (auto_expire_points C5wdb ⟨2025, 8, 10⟩).1
      ⟨2025, 8, 10⟩).1.employees.map Employee.pointTotal =
      (auto_expire_points C5wdb ⟨2025, 8, 10⟩).1.employees.map
        Employee.pointTotal :=
  C5_second_run_no_deductions C5wdb ⟨2025, 8, 10⟩
    (show (C5wdb.employees.map Employee.empId).Nodup by decide)

end ATP